import Mathlib

/-!
Verification development for the hybrid retrieval and graph re-ranking engine
of the yt-content-rag template.

The TypeScript sources are shallowly embedded:
* JavaScript numbers are modelled as real numbers (`ℝ`); where `NaN` can arise
  (date parsing in the hybrid scorer) the wrapper type `JsNum` with an explicit
  `nan` constructor is used, and arithmetic on `JsNum` propagates `nan` exactly
  as JavaScript arithmetic propagates `NaN`.
* Thrown exceptions are modelled with `Except JsError`.
* JavaScript `Map`s are modelled as association lists that preserve insertion
  order (as `Map` iteration does), or as functions to `Option` where only
  lookup/overwrite matters (the graph cache).
* `Math.random()` streams are modelled as explicitly passed functions
  `ℕ → ℝ` (a counter-indexed stream of samples).
-/

/-- Errors thrown by the embedded code.  The sources throw plain `Error`s
(`error`); `typeError` models the `TypeError`s the JavaScript runtime raises
when a value of the wrong shape is used (e.g. `.map` on a non-array). -/
inductive JsError where
  | error (msg : String)
  | typeError (msg : String)
deriving DecidableEq, Repr

/-! ### Decimal string ids

`createGraph` uses `index.toString()` as node ids.  We model `String(i)` by
`natToString`, the usual decimal representation, and prove it injective via a
round-trip with a decimal parser. -/

/-- The decimal digit character for `d < 10` (`'*'` is unreachable). -/
def digitChar : ℕ → Char
  | 0 => '0' | 1 => '1' | 2 => '2' | 3 => '3' | 4 => '4'
  | 5 => '5' | 6 => '6' | 7 => '7' | 8 => '8' | 9 => '9'
  | _ => '*'

/-- Decimal digits of `n`, most significant first. -/
def decChars (n : ℕ) : List Char :=
  if _h : n < 10 then [digitChar n]
  else decChars (n / 10) ++ [digitChar (n % 10)]
decreasing_by exact Nat.div_lt_self (by omega) (by omega)

/-- Model of JavaScript `String(i)` for a natural number `i`. -/
def natToString (n : ℕ) : String :=
  String.mk (decChars n)

/-- Numeric value of a digit character. -/
def digitVal (c : Char) : ℕ := c.toNat - 48

/-- Parse a decimal digit list (most significant first). -/
def parseDec (cs : List Char) : ℕ :=
  cs.foldl (fun acc c => acc * 10 + digitVal c) 0

/-! ### Cosine similarity (`GraphRAG.cosineSimilarity`)

```
let dotProduct = 0; let normVec1 = 0; let normVec2 = 0;
for (let i = 0; i < vec1.length; i++) { ... }
const magnitudeProduct = Math.sqrt(normVec1 * normVec2);
if (magnitudeProduct === 0) return 0;
return Math.max(-1, Math.min(1, dotProduct / magnitudeProduct));
```
(after a length-equality check that throws on mismatch). -/

/-- The `dotProduct` accumulator of the loop. -/
def dotProduct (v1 v2 : List ℝ) : ℝ :=
  ((v1.zip v2).map (fun p => p.1 * p.2)).sum

/-- The `normVec` accumulators of the loop (sum of squares of one vector). -/
def normSq (v : List ℝ) : ℝ :=
  (v.map (fun a => a * a)).sum

/-- Embedding of `GraphRAG.cosineSimilarity`.  The `null`/`undefined` guard cannot fire on
Lean lists and is omitted; the length guard and the zero-denominator guard are
kept as in the source. -/
noncomputable def cosineSimilarity (vec1 vec2 : List ℝ) : Except JsError ℝ :=
  if vec1.length ≠ vec2.length then
    .error (.error "Vector dimensions must match")
  else
    let magnitudeProduct := Real.sqrt (normSq vec1 * normSq vec2)
    if magnitudeProduct = 0 then .ok 0
    else .ok (max (-1) (min 1 (dotProduct vec1 vec2 / magnitudeProduct)))

/-! ### Graph data model (`youtube-graph-rag-tool`) -/

/-- The metadata fields this engine ever reads from a chunk's opaque metadata
record.  Absent fields are `none`; `publishedAt` is the parsed timestamp in
milliseconds, with `none` standing for a missing field or an unparsable date
(JavaScript's `Invalid Date`, whose `getTime()` is `NaN`). -/
structure Metadata where
  publishedAt : Option ℝ
  viewCount : Option ℝ
  tags : Option (List String)
  text : Option String
  chapterText : Option String

instance : Inhabited Metadata := ⟨⟨none, none, none, none, none⟩⟩

/-- The `GraphNode` record. -/
structure GraphNode where
  id : String
  content : String
  embedding : Option (List ℝ)
  metadata : Metadata

/-- The `GraphEdge` record (`type` is always `"semantic"`). -/
structure GraphEdge where
  source : String
  target : String
  weight : ℝ
  type : String

/-- The `GraphChunk` record. -/
structure GraphChunk where
  text : String
  metadata : Metadata

/-- The `GraphEmbedding` record. -/
structure GraphEmbedding where
  vector : List ℝ

/-- The `GraphRAG` instance state: `nodes` is a `Map<string, GraphNode>`
modelled as an insertion-ordered association list, `edges` the edge array. -/
structure GraphRAG where
  nodes : List (String × GraphNode)
  edges : List GraphEdge
  dimension : ℕ
  threshold : ℝ

/-- The `GraphRAG` constructor (source defaults: dimension 1536, threshold 0.7). -/
def GraphRAG.new (dimension : ℕ) (threshold : ℝ) : GraphRAG :=
  ⟨[], [], dimension, threshold⟩

/-- Embedding of `Map.set` on an insertion-ordered association list: an existing key is
updated in place, a new key is appended. -/
def assocSet {α : Type} (m : List (String × α)) (key : String) (v : α) :
    List (String × α) :=
  if m.any (fun p => p.1 == key) then
    m.map (fun p => if p.1 = key then (p.1, v) else p)
  else m ++ [(key, v)]

/-- Embedding of `this.nodes.set(node.id, node)`. -/
def mapSet (m : List (String × GraphNode)) (key : String) (v : GraphNode) :
    List (String × GraphNode) :=
  assocSet m key v

/-- Embedding of `this.nodes.has(id)`. -/
def GraphRAG.hasNode (g : GraphRAG) (id : String) : Bool :=
  g.nodes.any (fun p => p.1 == id)

/-- Embedding of `GraphRAG.addNode`. -/
def GraphRAG.addNode (g : GraphRAG) (node : GraphNode) : Except JsError GraphRAG :=
  match node.embedding with
  | none => .error (.error "Node must have an embedding")
  | some emb =>
      if emb.length ≠ g.dimension then
        .error (.error "Embedding dimension mismatch")
      else .ok { g with nodes := mapSet g.nodes node.id node }

/-- Embedding of `GraphRAG.addEdge`: pushes the edge and its reverse. -/
def GraphRAG.addEdge (g : GraphRAG) (edge : GraphEdge) : Except JsError GraphRAG :=
  if ¬ (g.hasNode edge.source ∧ g.hasNode edge.target) then
    .error (.error "Both source and target nodes must exist")
  else
    .ok { g with
          edges := g.edges ++ [edge, ⟨edge.target, edge.source, edge.weight, edge.type⟩] }

/-- Embedding of `GraphRAG.getNodeCount`. -/
def GraphRAG.getNodeCount (g : GraphRAG) : ℕ := g.nodes.length

/-- Embedding of `GraphRAG.getEdgeCount` (bidirectional entries counted once). -/
def GraphRAG.getEdgeCount (g : GraphRAG) : ℕ := g.edges.length / 2

/-- The unordered index pairs `(i, j)` with `i < j < n`, in the order the
nested `for` loops of `createGraph` visit them. -/
def pairsUpTo (n : ℕ) : List (ℕ × ℕ) :=
  (List.range n).flatMap (fun i => (List.range' (i + 1) (n - (i + 1))).map (fun j => (i, j)))

/-- One `chunks.forEach((chunk, index) => { ... this.addNode(node) })`
iteration of `createGraph`. -/
def addNodeStep (embeddings : List GraphEmbedding) (acc : GraphRAG)
    (p : ℕ × GraphChunk) : Except JsError GraphRAG :=
  acc.addNode
    { id := natToString p.1
      content := p.2.text
      embedding := (embeddings.get? p.1).map GraphEmbedding.vector
      metadata := p.2.metadata }

/-- The node-creation phase of `createGraph`. -/
def createNodes (g : GraphRAG) (chunks : List GraphChunk)
    (embeddings : List GraphEmbedding) : Except JsError GraphRAG :=
  chunks.enum.foldlM (addNodeStep embeddings) g

/-- One inner-loop body of `createGraph`'s edge phase: compute the cosine
similarity of the pair and add a (bidirectional) edge when it exceeds the
threshold. -/
noncomputable def addEdgeStep (embeddings : List GraphEmbedding) (acc : GraphRAG)
    (ij : ℕ × ℕ) : Except JsError GraphRAG :=
  match embeddings.get? ij.1, embeddings.get? ij.2 with
  | some e1, some e2 => do
      let similarity ← cosineSimilarity e1.vector e2.vector
      if acc.threshold < similarity then
        acc.addEdge ⟨natToString ij.1, natToString ij.2, similarity, "semantic"⟩
      else pure acc
  | _, _ => .error (.error "Vectors must not be null or undefined")

/-- The edge-creation phase of `createGraph` (the nested similarity loops). -/
noncomputable def createEdges (g : GraphRAG)
    (embeddings : List GraphEmbedding) (n : ℕ) : Except JsError GraphRAG :=
  (pairsUpTo n).foldlM (addEdgeStep embeddings) g

/-- Embedding of `GraphRAG.createGraph`. -/
noncomputable def GraphRAG.createGraph (g : GraphRAG) (chunks : List GraphChunk)
    (embeddings : List GraphEmbedding) : Except JsError GraphRAG := do
  if chunks.length = 0 ∨ embeddings.length = 0 then
    .error (.error "Chunks and embeddings arrays must not be empty")
  else if chunks.length ≠ embeddings.length then
    .error (.error "Chunks and embeddings must have the same length")
  else do
    let g1 ← createNodes g chunks embeddings
    createEdges g1 embeddings chunks.length

/-- The value returned by `cosineSimilarity` on equal-length vectors (the
function's non-throwing result). -/
noncomputable def cosValue (v1 v2 : List ℝ) : ℝ :=
  let magnitudeProduct := Real.sqrt (normSq v1 * normSq v2)
  if magnitudeProduct = 0 then 0
  else max (-1) (min 1 (dotProduct v1 v2 / magnitudeProduct))

/-- The edges `createGraph`'s inner loop appends for one index pair: both
directed entries when similarity exceeds the threshold, nothing otherwise. -/
noncomputable def edgesFor (embeddings : List GraphEmbedding) (threshold : ℝ)
    (ij : ℕ × ℕ) : List GraphEdge :=
  match embeddings.get? ij.1, embeddings.get? ij.2 with
  | some e1, some e2 =>
      if threshold < cosValue e1.vector e2.vector then
        [⟨natToString ij.1, natToString ij.2, cosValue e1.vector e2.vector, "semantic"⟩,
         ⟨natToString ij.2, natToString ij.1, cosValue e1.vector e2.vector, "semantic"⟩]
      else []
  | _, _ => []

/-- All edges the edge phase produces, pair by pair. -/
noncomputable def pureEdges (embeddings : List GraphEmbedding) (threshold : ℝ)
    (ps : List (ℕ × ℕ)) : List GraphEdge :=
  ps.flatMap (edgesFor embeddings threshold)

/-- A neighbor entry produced by `getNeighbors`. -/
structure Neighbor where
  id : String
  weight : ℝ

/-- Embedding of `GraphRAG.getNeighbors`. -/
def GraphRAG.getNeighbors (g : GraphRAG) (nodeId : String) : List Neighbor :=
  (g.edges.filter (fun e => e.source = nodeId)).map (fun e => ⟨e.target, e.weight⟩)

/-- The scanning loop of `selectWeightedNeighbor`: subtract each weight from
the remaining budget and stop at the first neighbor that takes it to `≤ 0`. -/
noncomputable def selectLoop : List Neighbor → ℝ → Option String
  | [], _ => none
  | nb :: rest, remainingWeight =>
      if remainingWeight - nb.weight ≤ 0 then some nb.id
      else selectLoop rest (remainingWeight - nb.weight)

/-- Embedding of `GraphRAG.selectWeightedNeighbor`; `r` is the `Math.random()` sample.
The `neighbors[neighbors.length - 1]?.id` fallback on the empty list yields
JavaScript `undefined`, modelled as `""` (never reached by the walk, which
only calls this on non-empty neighbor lists). -/
noncomputable def selectWeightedNeighbor (neighbors : List Neighbor) (r : ℝ) : String :=
  let totalWeight := (neighbors.map Neighbor.weight).sum
  match selectLoop neighbors (r * totalWeight) with
  | some id => id
  | none => ((neighbors.getLast?).map Neighbor.id).getD ""

/-- Embedding of `visits.set(id, (visits.get(id) || 0) + 1)` on the insertion-ordered map. -/
def bumpVisit (visits : List (String × ℕ)) (id : String) : List (String × ℕ) :=
  assocSet visits id (((visits.lookup id).getD 0) + 1)

/-- The step loop of `randomWalkWithRestart`.  `rand` is the `Math.random()`
stream, `ctr` the index of the next unconsumed sample (the restart test uses
one sample; a weighted neighbor selection uses one more). -/
noncomputable def walkLoop (g : GraphRAG) (startNodeId : String) (restartProb : ℝ)
    (rand : ℕ → ℝ) : ℕ → String → ℕ → List (String × ℕ) → List (String × ℕ)
  | 0, _, _, visits => visits
  | steps + 1, currentNodeId, ctr, visits =>
      let visits' := bumpVisit visits currentNodeId
      if rand ctr < restartProb then
        walkLoop g startNodeId restartProb rand steps startNodeId (ctr + 1) visits'
      else
        let neighbors := g.getNeighbors currentNodeId
        if neighbors.isEmpty then
          walkLoop g startNodeId restartProb rand steps startNodeId (ctr + 1) visits'
        else
          walkLoop g startNodeId restartProb rand steps
            (selectWeightedNeighbor neighbors (rand (ctr + 1))) (ctr + 2) visits'

/-- Embedding of `GraphRAG.randomWalkWithRestart`: run the loop, then normalize counts into
visit frequencies.  (When `steps = 0` the visit map is empty and the
normalization loop body never runs.) -/
noncomputable def GraphRAG.randomWalkWithRestart (g : GraphRAG) (startNodeId : String)
    (steps : ℕ) (restartProb : ℝ) (rand : ℕ → ℝ) : List (String × ℝ) :=
  let visits := walkLoop g startNodeId restartProb rand steps startNodeId 0 []
  let totalVisits : ℕ := (visits.map Prod.snd).sum
  visits.map (fun p => (p.1, (p.2 : ℝ) / (totalVisits : ℝ)))

/-- The `RankedNode` record (the query result shape). -/
structure RankedNode where
  id : String
  content : String
  metadata : Metadata
  score : ℝ

instance : Inhabited GraphNode := ⟨⟨"", "", none, default⟩⟩

/-- Embedding of `GraphRAG.query`.  Here `rand k` is the `Math.random()` stream consumed by the
walk started from the `k`-th seed (the source draws all walks from one global
stream; an injectable per-seed stream is an equivalent model of an arbitrary
random source).  Sorting models `Array.prototype.sort` with comparator
`(a, b) => b.x - a.x`, i.e. descending. -/
noncomputable def GraphRAG.query (g : GraphRAG) (queryV : List ℝ) (topK : ℕ)
    (randomWalkSteps : ℕ) (restartProb : ℝ) (rand : ℕ → ℕ → ℝ) :
    Except JsError (List RankedNode) :=
  if queryV.length ≠ g.dimension then
    .error (.error "Query embedding must have dimension")
  else do
    let similarities ← g.nodes.mapM (fun p =>
      match p.2.embedding with
      | none => Except.error (JsError.typeError "Vectors must not be null or undefined")
      | some emb => do
          let s ← cosineSimilarity queryV emb
          pure (p.2, s))
    let sorted := similarities.mergeSort (fun a b => decide (b.2 ≤ a.2))
    let topNodes := sorted.take topK
    let reranked := (topNodes.enum).foldl
      (fun acc (q : ℕ × (GraphNode × ℝ)) =>
        let walkScores := g.randomWalkWithRestart q.2.1.id randomWalkSteps restartProb (rand q.1)
        walkScores.foldl
          (fun acc2 (w : String × ℝ) =>
            let node := (g.nodes.lookup w.1).getD default
            let existingScore := ((acc2.lookup w.1).map (fun e => e.2)).getD 0
            assocSet acc2 w.1 (node, existingScore + q.2.2 * w.2))
          acc)
      ([] : List (String × (GraphNode × ℝ)))
    let final := (reranked.map Prod.snd).mergeSort (fun a b => decide (b.2 ≤ a.2))
    pure ((final.take topK).map (fun item => ⟨item.1.id, item.1.content, item.1.metadata, item.2⟩))

/-! ### Graph cache (`graphCache`, `CACHE_TTL_MS`, cache logic of
`youtubeGraphRAGTool.execute`) -/

/-- The `GraphCache` record (one cache entry). -/
structure CacheEntry where
  graph : GraphRAG
  indexName : String
  createdAt : ℤ
  nodeCount : ℕ

/-- The constant `CACHE_TTL_MS = 30 * 60 * 1000` (30 minutes). -/
def CACHE_TTL_MS : ℤ := 30 * 60 * 1000

/-- The cache map.  The source key is the string `` `${indexName}_${threshold}` ``;
it is modelled as the pair `(indexName, threshold)`. -/
def CacheMap : Type := (String × ℝ) → Option CacheEntry

/-- What the cache layer of `youtubeGraphRAGTool.execute` hands to the rest of
the tool: the graph to query, the `cacheHit` flag and `buildTimeMs`
(`none` on a cache hit, where the variable stays `undefined`). -/
structure CacheLayerOut where
  graph : GraphRAG
  cacheHit : Bool
  buildTimeMs : Option ℤ

/-- The build path of `youtubeGraphRAGTool.execute` (cache miss or forced
rebuild).  `build` stands for the `pgVector.query` fetch plus
`createGraph`, producing the graph and its measured wall-clock build time;
`.ok none` is the `graphResults.length === 0` early return (which does not
populate the cache); a thrown error propagates with the cache untouched.
Only a successful build stores an entry (keyed by `key`, stamped `now`). -/
noncomputable def resolveBuild (cache : CacheMap) (key : String × ℝ) (indexName : String)
    (now : ℤ) (build : Except JsError (Option (GraphRAG × ℤ))) :
    Except JsError (Option CacheLayerOut) × CacheMap :=
  match build with
  | .error e => (.error e, cache)
  | .ok none => (.ok none, cache)
  | .ok (some (g, buildTimeMs)) =>
      (.ok (some ⟨g, false, some buildTimeMs⟩),
       fun k => if k = key then some ⟨g, indexName, now, g.getNodeCount⟩ else cache k)

/-- The cache lookup of `youtubeGraphRAGTool.execute`: a cached entry is used
when present, not force-rebuilt, and younger than `CACHE_TTL_MS`; otherwise the
build path runs. -/
noncomputable def resolveGraph (cache : CacheMap) (indexName : String) (threshold : ℝ)
    (rebuildGraph : Bool) (now : ℤ) (build : Except JsError (Option (GraphRAG × ℤ))) :
    Except JsError (Option CacheLayerOut) × CacheMap :=
  let cacheKey : String × ℝ := (indexName, threshold)
  match cache cacheKey with
  | some cachedGraph =>
      if ¬ rebuildGraph ∧ now - cachedGraph.createdAt < CACHE_TTL_MS then
        (.ok (some ⟨cachedGraph.graph, true, none⟩), cache)
      else resolveBuild cache cacheKey indexName now build
  | none => resolveBuild cache cacheKey indexName now build

/-! ### Hybrid scorer (`calculateHybridScore` in
`youtube-hybrid-vector-query-tool`)

JavaScript arithmetic on a possibly-`NaN` value is modelled by `JsNum`:
`new Date(invalid).getTime()` is `NaN`, and every arithmetic operation,
as well as `Math.max`/`Math.min`, returns `NaN` when an operand is `NaN`. -/

/-- A JavaScript number: `NaN` or a real. -/
inductive JsNum where
  | nan : JsNum
  | num (x : ℝ) : JsNum

namespace JsNum

/-- JavaScript `+`. -/
def add : JsNum → JsNum → JsNum
  | nan, _ => nan
  | _, nan => nan
  | num a, num b => num (a + b)

/-- JavaScript `-`. -/
def sub : JsNum → JsNum → JsNum
  | nan, _ => nan
  | _, nan => nan
  | num a, num b => num (a - b)

/-- JavaScript `*`. -/
def mul : JsNum → JsNum → JsNum
  | nan, _ => nan
  | _, nan => nan
  | num a, num b => num (a * b)

/-- JavaScript `/`.  Division by zero yields `Infinity` in JavaScript, not
`NaN`; that case is unreachable here (all denominators in the scorer are
nonzero constants), so it is mapped to `nan`. -/
noncomputable def div : JsNum → JsNum → JsNum
  | nan, _ => nan
  | _, nan => nan
  | num a, num b => if b = 0 then nan else num (a / b)

/-- JavaScript `Math.max`. -/
def maxJ : JsNum → JsNum → JsNum
  | nan, _ => nan
  | _, nan => nan
  | num a, num b => num (max a b)

/-- Comparison `a ≤ b` on JavaScript numbers; false whenever an operand is `NaN`. -/
def leP : JsNum → JsNum → Prop
  | num a, num b => a ≤ b
  | _, _ => False

/-- Comparison `a < b` on JavaScript numbers; false whenever an operand is `NaN`. -/
def ltP : JsNum → JsNum → Prop
  | num a, num b => a < b
  | _, _ => False

end JsNum

/-- Embedding of `new Date(metadata.publishedAt).getTime()`: `NaN` when the field is
missing or does not parse. -/
def dateGetTime : Option ℝ → JsNum
  | none => .nan
  | some t => .num t

/-- The freshness component:
`Math.max(0, 1 - daysSincePublished / 365)` where `daysSincePublished` is
`(now - publishedDate.getTime()) / (1000*60*60*24)`. -/
noncomputable def freshnessScore (now : ℝ) (publishedAt : Option ℝ) : JsNum :=
  let daysSincePublished :=
    JsNum.div (JsNum.sub (.num now) (dateGetTime publishedAt)) (.num (1000 * 60 * 60 * 24))
  JsNum.maxJ (.num 0) (JsNum.sub (.num 1) (JsNum.div daysSincePublished (.num 365)))

/-- The popularity component:
`viewCount > 0 ? Math.min(1, Math.log10(viewCount + 1) / 6) : 0`, with
`metadata.viewCount || 0` defaulting a missing count to 0. -/
noncomputable def popularityScore (viewCountField : Option ℝ) : ℝ :=
  let viewCount := viewCountField.getD 0
  if 0 < viewCount then min 1 (Real.logb 10 (viewCount + 1) / 6) else 0

/-- Embedding of `tag.includes(word)`. -/
def jsIncludes (s sub : String) : Bool :=
  decide (sub.data <:+: s.data)

/-- Embedding of `queryText.toLowerCase().split(/\s+/)`.  Lean's `String.split` does not
collapse whitespace runs the way `/\s+/` does; the difference only produces
extra empty tokens and does not affect the verified properties. -/
def queryWordsOf (queryText : String) : List String :=
  queryText.toLower.split (fun c => c.isWhitespace)

/-- The tag-relevance component: the fraction of query words matched by some
tag (substring match in either direction, case-insensitive). -/
noncomputable def tagScore (queryText : String) (tagsField : Option (List String)) : ℝ :=
  let queryWords := queryWordsOf queryText
  let tags := (tagsField.getD []).map String.toLower
  let tagMatches :=
    (queryWords.filter (fun word =>
      tags.any (fun tag => jsIncludes tag word || jsIncludes word tag))).length
  if 0 < queryWords.length then (tagMatches : ℝ) / (queryWords.length : ℝ) else 0

/-- The `scoringWeights` record. -/
structure ScoringWeights where
  vector : ℝ
  freshness : ℝ
  popularity : ℝ
  tags : ℝ

/-- The default scoring weights `{vector: 0.6, freshness: 0.2,
popularity: 0.15, tags: 0.05}`. -/
noncomputable def defaultWeights : ScoringWeights :=
  ⟨0.6, 0.2, 0.15, 0.05⟩

/-- Embedding of `calculateHybridScore`.  Here `now` is the clock read (`new Date()`), passed
explicitly. -/
noncomputable def calculateHybridScore (vectorScore : ℝ) (metadata : Metadata)
    (queryText : String) (weights : ScoringWeights) (now : ℝ) : JsNum :=
  JsNum.add
    (JsNum.add
      (JsNum.add
        (JsNum.mul (.num weights.vector) (.num vectorScore))
        (JsNum.mul (.num weights.freshness) (freshnessScore now metadata.publishedAt)))
      (JsNum.mul (.num weights.popularity) (.num (popularityScore metadata.viewCount))))
    (JsNum.mul (.num weights.tags) (.num (tagScore queryText metadata.tags)))

/-! ### Hybrid vector query execute pipeline
(`youtubeHybridVectorQueryTool.execute`) -/

/-- One row returned by `pgVector.query` (vectors are not requested on this
path: `includeVector: false`). -/
structure StoreResult where
  id : String
  score : ℝ
  metadata : Metadata

/-- The descending comparator `(a, b) => b.hybridScore - a.hybridScore` as
the "may `a` stay before `b`" relation driving a stable sort: `a` precedes
`b` when the comparator result is `≤ 0` — and whenever the result is `NaN`
(either score `NaN`), since ECMAScript's `SortCompare` coerces a `NaN`
comparator result to `+0`, a tie that leaves the rows' relative order
unchanged. -/
noncomputable def hybridGeB (a b : StoreResult × JsNum) : Bool :=
  match a.2, b.2 with
  | .num x, .num y => decide (y ≤ x)
  | _, _ => true

/-- A transitive and total comparator that agrees with `hybridGeB` whenever
both scores are real numbers (it orders `NaN` rows last instead of tying
them).  `hybridGeB` itself is not transitive across `NaN`, so sortedness of
the `NaN`-free sort is obtained by exchanging the comparators, which is sound
because a sort only ever compares members of its input list. -/
noncomputable def hybridGeTot (a b : StoreResult × JsNum) : Bool :=
  match a.2, b.2 with
  | _, .nan => true
  | .nan, .num _ => false
  | .num x, .num y => decide (y ≤ x)

/-- One entry of the `sources` output array. -/
structure HybridSource where
  id : String
  score : ℝ
  hybridScore : Option JsNum
  metadata : Metadata
  text : String

/-- The output of the hybrid tool (`relevantContext`, `sources`,
`queryMetadata`). -/
structure HybridOutput where
  relevantContext : List Metadata
  sources : List HybridSource
  indexName : String
  totalResults : ℕ
  scoringMethod : String

/-- The retrieval/scoring pipeline of `youtubeHybridVectorQueryTool.execute`,
from the `pgVector.query` call on: the store is asked for `topK * 2` candidates,
each candidate is hybrid-scored, the scored list is sorted descending by
hybrid score, truncated to `topK`, and formatted.  `store` stands for
`pgVector.query`, mapping the requested `topK` to the returned rows. -/
noncomputable def hybridExecute (queryText indexName : String) (topK : ℕ)
    (weights : ScoringWeights) (includeScore : Bool) (now : ℝ)
    (store : ℕ → List StoreResult) : HybridOutput :=
  let results := store (topK * 2)
  let scoredResults := results.map
    (fun r => (r, calculateHybridScore r.score r.metadata queryText weights now))
  let sorted := scoredResults.mergeSort hybridGeB
  let topResults := sorted.take topK
  let sources := topResults.map (fun rc =>
    { id := rc.1.id
      score := if includeScore then rc.1.score else 0
      hybridScore := if includeScore then some rc.2 else none
      metadata := rc.1.metadata
      text := (rc.1.metadata.text).getD ((rc.1.metadata.chapterText).getD "") })
  { relevantContext := topResults.map (fun rc => rc.1.metadata)
    sources := sources
    indexName := indexName
    totalResults := sources.length
    scoringMethod := "hybrid" }

/-! ### Filter compiler (`buildFilterQuery`)

The filter value space (JSON-ish) is `FVal`.  The produced SQL `WHERE`
fragments are represented structurally by `Cond` (one constructor per
condition shape the compiler emits, carrying the metadata field and the
`$n` placeholder indices), and the pushed parameters by `PVal`
(`jstr v` is `String(v)`, `raw v` the value itself, `likeContains v` the
string `` `%${v}%` ``, and so on; `undefinedV` is JavaScript `undefined`,
which `$between` pushes when a bound array is too short). -/

/-- A JSON-ish filter value. -/
inductive FVal where
  | str (s : String)
  | num (x : ℝ)
  | boolean (b : Bool)
  | arr (xs : List FVal)
  | obj (entries : List (String × FVal))

/-- A compiled SQL condition fragment. -/
inductive Cond where
  | eqC (field : String) (i : ℕ)
  | neC (field : String) (i : ℕ)
  | gtC (field : String) (i : ℕ)
  | gteC (field : String) (i : ℕ)
  | ltC (field : String) (i : ℕ)
  | lteC (field : String) (i : ℕ)
  | inC (field : String) (idxs : List ℕ)
  | betweenC (field : String) (i j : ℕ)
  | containsC (field : String) (i : ℕ)
  | startsWithC (field : String) (i : ℕ)
  | endsWithC (field : String) (i : ℕ)
  | andC (qs : List (List Cond))
  | orC (qs : List (List Cond))
  | notC (q : List Cond)

/-- A pushed query parameter. -/
inductive PVal where
  | jstr (v : FVal)
  | raw (v : FVal)
  | undefinedV
  | likeContains (v : FVal)
  | likeStarts (v : FVal)
  | likeEnds (v : FVal)

/-- The `{ query, params, nextIndex }` result record of `buildFilterQuery`
(`query` kept structurally as the AND-joined condition list). -/
structure FilterResult where
  conds : List Cond
  params : List PVal
  nextIndex : ℕ

/-- Embedding of `(val as any[])[k]` for the `$between` bounds: `undefined` when out of
range (or when `val` is not an array; string indexing is not modelled). -/
def betweenParam (val : FVal) (k : ℕ) : PVal :=
  match val with
  | .arr xs => match xs.get? k with
               | some v => .raw v
               | none => .undefinedV
  | _ => .undefinedV

/-- The `switch (op)` of `buildFilterQuery`'s field-operator handling.  Note
the switch has no `default` case: an operator outside the recognized set adds
no condition, no parameter, and leaves the index unchanged. -/
def processOp (key op : String) (val : FVal) (i : ℕ) : Except JsError FilterResult :=
  if op = "$eq" then .ok ⟨[.eqC key i], [.jstr val], i + 1⟩
  else if op = "$ne" then .ok ⟨[.neC key i], [.jstr val], i + 1⟩
  else if op = "$gt" then .ok ⟨[.gtC key i], [.raw val], i + 1⟩
  else if op = "$gte" then .ok ⟨[.gteC key i], [.raw val], i + 1⟩
  else if op = "$lt" then .ok ⟨[.ltC key i], [.raw val], i + 1⟩
  else if op = "$lte" then .ok ⟨[.lteC key i], [.raw val], i + 1⟩
  else if op = "$in" then
    match val with
    | .arr xs => .ok ⟨[.inC key (List.range' i xs.length)], xs.map .raw, i + xs.length⟩
    | _ => .error (.typeError "val.map is not a function")
  else if op = "$between" then
    .ok ⟨[.betweenC key i (i + 1)], [betweenParam val 0, betweenParam val 1], i + 2⟩
  else if op = "$contains" then .ok ⟨[.containsC key i], [.likeContains val], i + 1⟩
  else if op = "$startsWith" then .ok ⟨[.startsWithC key i], [.likeStarts val], i + 1⟩
  else if op = "$endsWith" then .ok ⟨[.endsWithC key i], [.likeEnds val], i + 1⟩
  else .ok ⟨[], [], i⟩

/-- Embedding of `Object.entries(value).forEach(([op, val]) => ...)` over a field's
operator object. -/
def processOps (key : String) : List (String × FVal) → ℕ → Except JsError FilterResult
  | [], i => .ok ⟨[], [], i⟩
  | (op, val) :: rest, i =>
      match processOp key op val i with
      | .error e => .error e
      | .ok r1 =>
          match processOps key rest r1.nextIndex with
          | .error e => .error e
          | .ok r2 => .ok ⟨r1.conds ++ r2.conds, r1.params ++ r2.params, r2.nextIndex⟩

mutual

/-- Embedding of `buildFilterQuery(filter, paramIndex)`: fold `processFilter` over
`Object.entries(filter)`, collecting conditions, parameters and the running
placeholder index. -/
def buildFilterQuery : List (String × FVal) → ℕ → Except JsError FilterResult
  | [], i => .ok ⟨[], [], i⟩
  | (key, value) :: rest, paramIndex =>
      match processFilter key value paramIndex with
      | .error e => .error e
      | .ok r1 =>
          match buildFilterQuery rest r1.nextIndex with
          | .error e => .error e
          | .ok r2 => .ok ⟨r1.conds ++ r2.conds, r1.params ++ r2.params, r2.nextIndex⟩

/-- The `processFilter` closure: `$and`/`$or` recurse over an array of
sub-filters, `$not` over a single sub-filter; an object value is a field
operator map; any other value compiles to simple equality.
(`Object.entries` of a non-object sub-filter is modelled as the empty entry
list; `$and`/`$or` with a non-array value raises a `TypeError`, as
`value.map` does.) -/
def processFilter : String → FVal → ℕ → Except JsError FilterResult
  | key, value, i =>
      if key = "$and" then
        match value with
        | .arr subs =>
            match processSubFilters subs i with
            | .error e => .error e
            | .ok (qs, ps, j) => .ok ⟨[.andC qs], ps, j⟩
        | _ => .error (.typeError "value.map is not a function")
      else if key = "$or" then
        match value with
        | .arr subs =>
            match processSubFilters subs i with
            | .error e => .error e
            | .ok (qs, ps, j) => .ok ⟨[.orC qs], ps, j⟩
        | _ => .error (.typeError "value.map is not a function")
      else if key = "$not" then
        match value with
        | .obj fs =>
            match buildFilterQuery fs i with
            | .error e => .error e
            | .ok r => .ok ⟨[.notC r.conds], r.params, r.nextIndex⟩
        | _ => .ok ⟨[.notC []], [], i⟩
      else
        match value with
        | .obj ops => processOps key ops i
        | other => .ok ⟨[.eqC key i], [.jstr other], i + 1⟩

/-- The `value.map(subFilter => buildFilterQuery(subFilter, ...))` fold used
by `$and` and `$or`. -/
def processSubFilters : List FVal → ℕ → Except JsError (List (List Cond) × List PVal × ℕ)
  | [], i => .ok ([], [], i)
  | .obj fs :: rest, i =>
      match buildFilterQuery fs i with
      | .error e => .error e
      | .ok r =>
          match processSubFilters rest r.nextIndex with
          | .error e => .error e
          | .ok (qs, ps, j) => .ok (r.conds :: qs, r.params ++ ps, j)
  | _ :: rest, i =>
      match processSubFilters rest i with
      | .error e => .error e
      | .ok (qs, ps, j) => .ok (([] : List Cond) :: qs, ps, j)

end

/-! ## Theorems -/

theorem parseDec_append_singleton (cs : List Char) (c : Char) :
    parseDec (cs ++ [c]) = parseDec cs * 10 + digitVal c := by
  unfold parseDec
  rw [List.foldl_append]
  rfl

theorem parseDec_aux (b : ℕ) (cs : List Char) :
    (cs.foldl (fun acc c => acc * 10 + digitVal c) b) =
      b * 10 ^ cs.length + parseDec cs := by
  induction cs generalizing b with
  | nil => simp [parseDec]
  | cons c cs ih =>
      have hstep : parseDec (c :: cs) = digitVal c * 10 ^ cs.length + parseDec cs := by
        show List.foldl _ (0 * 10 + digitVal c) cs = _
        rw [Nat.zero_mul, Nat.zero_add, ih]
      rw [List.foldl_cons, ih, hstep, List.length_cons, pow_succ]
      ring

theorem digitVal_digitChar (d : ℕ) (h : d < 10) : digitVal (digitChar d) = d := by
  interval_cases d <;> rfl

theorem parseDec_decChars (n : ℕ) : parseDec (decChars n) = n := by
  induction n using Nat.strong_induction_on with
  | _ n ih =>
      rw [decChars]
      by_cases h : n < 10
      · simp only [h, dif_pos]
        simpa [parseDec] using digitVal_digitChar n h
      · simp only [h, dif_neg, not_false_iff]
        rw [parseDec_append_singleton,
          ih (n / 10) (Nat.div_lt_self (by omega) (by omega)),
          digitVal_digitChar (n % 10) (Nat.mod_lt _ (by omega))]
        omega

theorem natToString_injective : Function.Injective natToString := by
  intro m n h
  have h' : decChars m = decChars n := congrArg String.data h
  have := parseDec_decChars m
  rw [h', parseDec_decChars n] at this
  exact this.symm

theorem dotProduct_self (v : List ℝ) : dotProduct v v = normSq v := by
  induction v with
  | nil => rfl
  | cons a v ih => simp [dotProduct, normSq, List.zip_cons_cons] at ih ⊢; simp [ih]

theorem dotProduct_comm (v1 v2 : List ℝ) : dotProduct v1 v2 = dotProduct v2 v1 := by
  induction v1 generalizing v2 with
  | nil => cases v2 <;> rfl
  | cons a v ih =>
      cases v2 with
      | nil => rfl
      | cons b w => simp [dotProduct, List.zip_cons_cons] at ih ⊢; simp [ih, mul_comm]

theorem normSq_nonneg (v : List ℝ) : 0 ≤ normSq v := by
  apply List.sum_nonneg
  intro x hx
  obtain ⟨a, _, rfl⟩ := List.mem_map.1 hx
  exact mul_self_nonneg a

/-! ## Claim theorems -/

/-- C5: for equal-length embedding vectors, `cosineSimilarity` is 1 on a
vector paired with itself (when its magnitude is nonzero, the case singled
out by the zero-denominator clause), is symmetric, always returns a value in
`[-1, 1]`, and returns 0 whenever either vector has zero magnitude. -/
theorem cosineSimilarity_spec :
    (∀ v : List ℝ, normSq v ≠ 0 → cosineSimilarity v v = .ok 1) ∧
    (∀ v1 v2 : List ℝ, v1.length = v2.length →
      cosineSimilarity v1 v2 = cosineSimilarity v2 v1) ∧
    (∀ (v1 v2 : List ℝ) (r : ℝ), cosineSimilarity v1 v2 = .ok r → -1 ≤ r ∧ r ≤ 1) ∧
    (∀ v1 v2 : List ℝ, v1.length = v2.length → (normSq v1 = 0 ∨ normSq v2 = 0) →
      cosineSimilarity v1 v2 = .ok 0) := by
  refine ⟨?_, ?_, ?_, ?_⟩
  · intro v hv
    have hS : 0 ≤ normSq v := normSq_nonneg v
    have hsqrt : Real.sqrt (normSq v * normSq v) = normSq v := Real.sqrt_mul_self hS
    simp only [cosineSimilarity]
    rw [if_neg (fun h => h rfl)]
    simp only [hsqrt, dotProduct_self]
    rw [if_neg hv, div_self hv]
    norm_num
  · intro v1 v2 h
    simp only [cosineSimilarity]
    rw [if_neg (show ¬v1.length ≠ v2.length from fun hc => hc h),
      if_neg (show ¬v2.length ≠ v1.length from fun hc => hc h.symm),
      mul_comm (normSq v2) (normSq v1), dotProduct_comm v2 v1]
  · intro v1 v2 r h
    by_cases h1 : v1.length ≠ v2.length
    · simp [cosineSimilarity, h1] at h
    · simp only [cosineSimilarity, if_neg h1] at h
      by_cases h2 : Real.sqrt (normSq v1 * normSq v2) = 0
      · rw [if_pos h2] at h
        cases h
        norm_num
      · rw [if_neg h2] at h
        cases h
        constructor
        · exact le_max_left _ _
        · exact max_le (by norm_num) (min_le_left _ _)
  · intro v1 v2 h h0
    have hz : normSq v1 * normSq v2 = 0 := by
      rcases h0 with h0 | h0 <;> simp [h0]
    simp only [cosineSimilarity]
    rw [if_neg (fun hc => hc h), hz, Real.sqrt_zero, if_pos rfl]

/-- Witness for C5 at concrete inputs. -/
theorem cosineSimilarity_spec_witness :
    (normSq ([1, 0] : List ℝ) ≠ 0 ∧ cosineSimilarity [1, 0] [1, 0] = .ok 1) ∧
    cosineSimilarity [3, 4] [5, 6] = cosineSimilarity [5, 6] [3, 4] ∧
    (-1 ≤ (0 : ℝ) ∧ (0 : ℝ) ≤ 1) ∧
    cosineSimilarity [0, 0] [1, 2] = .ok 0 := by
  have h1 : normSq ([1, 0] : List ℝ) ≠ 0 := by norm_num [normSq]
  have hz : normSq ([0, 0] : List ℝ) = 0 ∨ normSq ([1, 2] : List ℝ) = 0 := by
    left; norm_num [normSq]
  have h4 := cosineSimilarity_spec.2.2.2 [0, 0] [1, 2] rfl hz
  exact ⟨⟨h1, cosineSimilarity_spec.1 [1, 0] h1⟩,
    cosineSimilarity_spec.2.1 [3, 4] [5, 6] rfl,
    cosineSimilarity_spec.2.2.1 [0, 0] [1, 2] 0 h4, h4⟩

/-- Evaluation of the freshness component on a valid (parsed) publish date. -/
theorem freshnessScore_some (now t : ℝ) :
    freshnessScore now (some t) =
      .num (max 0 (1 - (now - t) / (1000 * 60 * 60 * 24) / 365)) := by
  have h1 : ¬(1000 * 60 * 60 * 24 : ℝ) = 0 := by norm_num
  have h2 : ¬(365 : ℝ) = 0 := by norm_num
  simp [freshnessScore, dateGetTime, JsNum.sub, JsNum.div, JsNum.maxJ, h1, h2]

/-- When the freshness component is a real number, the hybrid score is the
plain weighted sum of the four components. -/
theorem calculateHybridScore_eq_num (v : ℝ) (m : Metadata) (q : String)
    (w : ScoringWeights) (now f : ℝ) (hf : freshnessScore now m.publishedAt = .num f) :
    calculateHybridScore v m q w now =
      .num (w.vector * v + w.freshness * f +
        w.popularity * popularityScore m.viewCount + w.tags * tagScore q m.tags) := by
  simp only [calculateHybridScore, hf, JsNum.mul, JsNum.add]

/-- C3: the code does not treat a missing/invalid `publishedAt` as freshness
0 — `new Date(...).getTime()` is `NaN`, so the freshness component and with it
the whole hybrid score evaluate to `NaN` (never equal to a real number, in
particular not 0), although the item is still scored.  The spec's required
behaviour (freshness 0) therefore does not hold on this input. -/
theorem calculateHybridScore_nan_on_missing_publishedAt :
    freshnessScore 1700000000000 none = JsNum.nan ∧
    calculateHybridScore 0.5 ⟨none, some 0, some [], none, none⟩ "query"
      defaultWeights 1700000000000 = JsNum.nan ∧
    (∀ x : ℝ, JsNum.nan ≠ JsNum.num x) := by
  refine ⟨rfl, rfl, ?_⟩
  intro x h
  cases h

/-- C7 counterexample: `calculateHybridScore` is not monotone in a signal for
every fixed weight tuple — with vector weight `-1` (admitted by the input
schema), raising the vector score from 0 to 1 strictly lowers the hybrid
score, the other three signals held fixed. -/
theorem calculateHybridScore_not_monotone :
    JsNum.ltP
      (calculateHybridScore 1 ⟨some 0, some 0, some [], none, none⟩ "q" ⟨-1, 0, 0, 0⟩ 0)
      (calculateHybridScore 0 ⟨some 0, some 0, some [], none, none⟩ "q" ⟨-1, 0, 0, 0⟩ 0) := by
  rw [calculateHybridScore_eq_num 1 _ "q" _ 0 _ (freshnessScore_some 0 0),
    calculateHybridScore_eq_num 0 _ "q" _ 0 _ (freshnessScore_some 0 0)]
  simp only [JsNum.ltP]
  norm_num

/-- C7 (amended): the hybrid score is monotone non-decreasing in each of the
four signals — vector similarity, freshness, popularity, tag relevance — when
the other three signals and the weight tuple are held fixed, provided the
varied signal's weight is nonnegative and the publish date is valid (so the
score is a real number rather than `NaN`). -/
theorem calculateHybridScore_monotone :
    (∀ (w : ScoringWeights) (m : Metadata) (q : String) (now f v₁ v₂ : ℝ),
        freshnessScore now m.publishedAt = .num f → 0 ≤ w.vector → v₁ ≤ v₂ →
        JsNum.leP (calculateHybridScore v₁ m q w now) (calculateHybridScore v₂ m q w now)) ∧
    (∀ (w : ScoringWeights) (m₁ m₂ : Metadata) (q : String) (now f₁ f₂ v : ℝ),
        m₁.viewCount = m₂.viewCount → m₁.tags = m₂.tags →
        freshnessScore now m₁.publishedAt = .num f₁ →
        freshnessScore now m₂.publishedAt = .num f₂ →
        0 ≤ w.freshness → f₁ ≤ f₂ →
        JsNum.leP (calculateHybridScore v m₁ q w now) (calculateHybridScore v m₂ q w now)) ∧
    (∀ (w : ScoringWeights) (m₁ m₂ : Metadata) (q : String) (now f v : ℝ),
        m₁.publishedAt = m₂.publishedAt → m₁.tags = m₂.tags →
        freshnessScore now m₁.publishedAt = .num f → 0 ≤ w.popularity →
        popularityScore m₁.viewCount ≤ popularityScore m₂.viewCount →
        JsNum.leP (calculateHybridScore v m₁ q w now) (calculateHybridScore v m₂ q w now)) ∧
    (∀ (w : ScoringWeights) (m : Metadata) (q₁ q₂ : String) (now f v : ℝ),
        freshnessScore now m.publishedAt = .num f → 0 ≤ w.tags →
        tagScore q₁ m.tags ≤ tagScore q₂ m.tags →
        JsNum.leP (calculateHybridScore v m q₁ w now) (calculateHybridScore v m q₂ w now)) := by
  refine ⟨?_, ?_, ?_, ?_⟩
  · intro w m q now f v₁ v₂ hf hw hv
    rw [calculateHybridScore_eq_num v₁ m q w now f hf,
      calculateHybridScore_eq_num v₂ m q w now f hf]
    simp only [JsNum.leP]
    gcongr
  · intro w m₁ m₂ q now f₁ f₂ v hvc htg hf₁ hf₂ hw hf
    rw [calculateHybridScore_eq_num v m₁ q w now f₁ hf₁,
      calculateHybridScore_eq_num v m₂ q w now f₂ hf₂, hvc, htg]
    simp only [JsNum.leP]
    gcongr
  · intro w m₁ m₂ q now f v hpub htg hf hw hp
    have hf₂ : freshnessScore now m₂.publishedAt = .num f := by rw [← hpub]; exact hf
    rw [calculateHybridScore_eq_num v m₁ q w now f hf,
      calculateHybridScore_eq_num v m₂ q w now f hf₂, htg]
    simp only [JsNum.leP]
    gcongr
  · intro w m q₁ q₂ now f v hf hw ht
    rw [calculateHybridScore_eq_num v m q₁ w now f hf,
      calculateHybridScore_eq_num v m q₂ w now f hf]
    simp only [JsNum.leP]
    gcongr

/-- Witness for the amended C7 at concrete inputs. -/
theorem calculateHybridScore_monotone_witness :
    (freshnessScore 0 (some (0 : ℝ)) =
        .num (max 0 (1 - (0 - 0) / (1000 * 60 * 60 * 24) / 365)) ∧
      (0 : ℝ) ≤ 1 ∧
      JsNum.leP
        (calculateHybridScore 0 ⟨some 0, some 0, some [], none, none⟩ "q" ⟨1, 1, 1, 1⟩ 0)
        (calculateHybridScore 1 ⟨some 0, some 0, some [], none, none⟩ "q" ⟨1, 1, 1, 1⟩ 0)) ∧
    JsNum.leP
      (calculateHybridScore 0 ⟨some 0, some 0, some [], none, none⟩ "q" ⟨1, 1, 1, 1⟩ 0)
      (calculateHybridScore 0 ⟨some 0, some 0, some [], none, none⟩ "q" ⟨1, 1, 1, 1⟩ 0) ∧
    JsNum.leP
      (calculateHybridScore 0 ⟨some 0, some 0, some [], none, none⟩ "q" ⟨1, 1, 1, 1⟩ 0)
      (calculateHybridScore 0 ⟨some 0, some 0, some [], none, none⟩ "q" ⟨1, 1, 1, 1⟩ 0) ∧
    JsNum.leP
      (calculateHybridScore 0 ⟨some 0, some 0, some [], none, none⟩ "q" ⟨1, 1, 1, 1⟩ 0)
      (calculateHybridScore 0 ⟨some 0, some 0, some [], none, none⟩ "q" ⟨1, 1, 1, 1⟩ 0) := by
  have hf := freshnessScore_some 0 0
  refine ⟨⟨hf, by norm_num, ?_⟩, ?_, ?_, ?_⟩
  · exact calculateHybridScore_monotone.1 ⟨1, 1, 1, 1⟩
      ⟨some 0, some 0, some [], none, none⟩ "q" 0 _ 0 1 hf (by norm_num) (by norm_num)
  · exact calculateHybridScore_monotone.2.1 ⟨1, 1, 1, 1⟩
      ⟨some 0, some 0, some [], none, none⟩ ⟨some 0, some 0, some [], none, none⟩ "q" 0 _ _ 0
      rfl rfl hf hf (by norm_num) le_rfl
  · exact calculateHybridScore_monotone.2.2.1 ⟨1, 1, 1, 1⟩
      ⟨some 0, some 0, some [], none, none⟩ ⟨some 0, some 0, some [], none, none⟩ "q" 0 _ 0
      rfl rfl hf (by norm_num) le_rfl
  · exact calculateHybridScore_monotone.2.2.2 ⟨1, 1, 1, 1⟩
      ⟨some 0, some 0, some [], none, none⟩ "q" "q" 0 _ 0 hf (by norm_num) le_rfl

/-- C2 counterexample: `buildFilterQuery` does not fail on an unrecognized
operator (the `switch` has no default case: `$regex` is silently dropped and
an empty condition list is produced), nor on a `$between` whose bound array
has one element (the missing bound is pushed as `undefined`); both compile to
`.ok` results, so no `ValidationError` is raised. -/
theorem buildFilterQuery_no_validation_error :
    buildFilterQuery [("viewCount", .obj [("$regex", .str "x")])] 1 = .ok ⟨[], [], 1⟩ ∧
    buildFilterQuery [("viewCount", .obj [("$between", .arr [.num 5])])] 1 =
      .ok ⟨[.betweenC "viewCount" 1 2], [.raw (.num 5), .undefinedV], 3⟩ := by
  constructor <;> rfl

/-- C2 (amended): compiling a filter whose field operator lies outside the
recognized operator set does not raise a `ValidationError` — the operator is
silently skipped, contributing no condition, no parameter and no index
movement; and a `$between` bound array is never length-checked: any length
compiles to a `BETWEEN` condition whose missing bounds are `undefined`
parameters. -/
theorem buildFilterQuery_lenient (k op : String) (val : FVal) (i : ℕ)
    (hk1 : k ≠ "$and") (hk2 : k ≠ "$or") (hk3 : k ≠ "$not")
    (hop : op ∉ (["$eq", "$ne", "$gt", "$gte", "$lt", "$lte", "$in", "$between",
      "$contains", "$startsWith", "$endsWith"] : List String)) :
    buildFilterQuery [(k, .obj [(op, val)])] i = .ok ⟨[], [], i⟩ ∧
    ∀ xs : List FVal, buildFilterQuery [(k, .obj [("$between", .arr xs)])] i =
      .ok ⟨[.betweenC k i (i + 1)],
        [betweenParam (.arr xs) 0, betweenParam (.arr xs) 1], i + 2⟩ := by
  simp only [List.mem_cons, List.not_mem_nil, or_false, not_or] at hop
  obtain ⟨h1, h2, h3, h4, h5, h6, h7, h8, h9, h10, h11⟩ := hop
  constructor
  · simp [buildFilterQuery, processFilter, processOps, processOp,
      hk1, hk2, hk3, h1, h2, h3, h4, h5, h6, h7, h8, h9, h10, h11]
  · intro xs
    simp [buildFilterQuery, processFilter, processOps, processOp, hk1, hk2, hk3]

/-- Witness for the amended C2 at concrete inputs. -/
theorem buildFilterQuery_lenient_witness :
    ("viewCount" : String) ≠ "$and" ∧ ("viewCount" : String) ≠ "$or" ∧
    ("viewCount" : String) ≠ "$not" ∧
    ("$regex" : String) ∉ (["$eq", "$ne", "$gt", "$gte", "$lt", "$lte", "$in",
      "$between", "$contains", "$startsWith", "$endsWith"] : List String) ∧
    buildFilterQuery [("viewCount", .obj [("$regex", .str "x")])] 7 = .ok ⟨[], [], 7⟩ ∧
    buildFilterQuery [("viewCount", .obj [("$between", .arr [.num 5])])] 7 =
      .ok ⟨[.betweenC "viewCount" 7 8],
        [betweenParam (.arr [.num 5]) 0, betweenParam (.arr [.num 5]) 1], 9⟩ := by
  have hk1 : ("viewCount" : String) ≠ "$and" := by decide
  have hk2 : ("viewCount" : String) ≠ "$or" := by decide
  have hk3 : ("viewCount" : String) ≠ "$not" := by decide
  have hop : ("$regex" : String) ∉ (["$eq", "$ne", "$gt", "$gte", "$lt", "$lte", "$in",
      "$between", "$contains", "$startsWith", "$endsWith"] : List String) := by decide
  have h := buildFilterQuery_lenient "viewCount" "$regex" (.str "x") 7 hk1 hk2 hk3 hop
  exact ⟨hk1, hk2, hk3, hop, h.1, h.2 [.num 5]⟩

/-- C4: for the graph cache keyed by index name and threshold — a first
lookup with a fresh key builds, stores an entry stamped with the current
time, and reports `cacheHit = false` with a build time; an immediate second
lookup (no `forceRebuild`, within the 30-minute TTL) returns the identical
stored graph object with `cacheHit = true`, no build time and no cache
change; a lookup after the TTL has elapsed rebuilds, overwrites the entry for
that key, and reports `cacheHit = false`. -/
theorem resolveGraph_cache_spec
    (cache₀ : CacheMap) (indexName : String) (threshold : ℝ)
    (g₁ g₃ : GraphRAG) (t₁ t₃ : ℤ) (now₁ now₂ now₃ : ℤ)
    (hfresh : cache₀ (indexName, threshold) = none)
    (h₂ : now₂ - now₁ < CACHE_TTL_MS)
    (h₃ : ¬ now₃ - now₁ < CACHE_TTL_MS) :
    ∃ cache₁ : CacheMap,
      resolveGraph cache₀ indexName threshold false now₁ (.ok (some (g₁, t₁))) =
        (.ok (some ⟨g₁, false, some t₁⟩), cache₁) ∧
      cache₁ (indexName, threshold) = some ⟨g₁, indexName, now₁, g₁.getNodeCount⟩ ∧
      resolveGraph cache₁ indexName threshold false now₂ (.ok (some (g₃, t₃))) =
        (.ok (some ⟨g₁, true, none⟩), cache₁) ∧
      ∃ cache₂ : CacheMap,
        resolveGraph cache₁ indexName threshold false now₃ (.ok (some (g₃, t₃))) =
          (.ok (some ⟨g₃, false, some t₃⟩), cache₂) ∧
        cache₂ (indexName, threshold) = some ⟨g₃, indexName, now₃, g₃.getNodeCount⟩ := by
  classical
  refine ⟨fun k => if k = (indexName, threshold)
      then some ⟨g₁, indexName, now₁, g₁.getNodeCount⟩ else cache₀ k, ?_, ?_, ?_, ?_⟩
  · simp [resolveGraph, resolveBuild, hfresh]
  · simp
  · simp [resolveGraph, resolveBuild, h₂]
  · refine ⟨fun k => if k = (indexName, threshold)
        then some ⟨g₃, indexName, now₃, g₃.getNodeCount⟩
        else if k = (indexName, threshold)
          then some ⟨g₁, indexName, now₁, g₁.getNodeCount⟩ else cache₀ k, ?_, ?_⟩
    · simp [resolveGraph, resolveBuild, h₃]
    · simp

/-- Witness for C4 at concrete inputs. -/
theorem resolveGraph_cache_spec_witness :
    ((fun _ => none : CacheMap) ("idx", (7 : ℝ) / 10) = none ∧
      (1000 : ℤ) - 0 < CACHE_TTL_MS ∧ ¬ ((1800000 : ℤ) - 0 < CACHE_TTL_MS)) ∧
    (∃ cache₁ : CacheMap,
      resolveGraph (fun _ => none) "idx" ((7 : ℝ) / 10) false 0
          (.ok (some (GraphRAG.new 2 ((7 : ℝ) / 10), 5))) =
        (.ok (some ⟨GraphRAG.new 2 ((7 : ℝ) / 10), false, some 5⟩), cache₁) ∧
      cache₁ ("idx", (7 : ℝ) / 10) =
        some ⟨GraphRAG.new 2 ((7 : ℝ) / 10), "idx", 0,
          (GraphRAG.new 2 ((7 : ℝ) / 10)).getNodeCount⟩ ∧
      resolveGraph cache₁ "idx" ((7 : ℝ) / 10) false 1000
          (.ok (some (GraphRAG.new 3 ((7 : ℝ) / 10), 9))) =
        (.ok (some ⟨GraphRAG.new 2 ((7 : ℝ) / 10), true, none⟩), cache₁) ∧
      ∃ cache₂ : CacheMap,
        resolveGraph cache₁ "idx" ((7 : ℝ) / 10) false 1800000
            (.ok (some (GraphRAG.new 3 ((7 : ℝ) / 10), 9))) =
          (.ok (some ⟨GraphRAG.new 3 ((7 : ℝ) / 10), false, some 9⟩), cache₂) ∧
        cache₂ ("idx", (7 : ℝ) / 10) =
          some ⟨GraphRAG.new 3 ((7 : ℝ) / 10), "idx", 1800000,
            (GraphRAG.new 3 ((7 : ℝ) / 10)).getNodeCount⟩) := by
  have h₂ : (1000 : ℤ) - 0 < CACHE_TTL_MS := by norm_num [CACHE_TTL_MS]
  have h₃ : ¬ ((1800000 : ℤ) - 0 < CACHE_TTL_MS) := by norm_num [CACHE_TTL_MS]
  exact ⟨⟨rfl, h₂, h₃⟩,
    resolveGraph_cache_spec (fun _ => none) "idx" ((7 : ℝ) / 10)
      (GraphRAG.new 2 ((7 : ℝ) / 10)) (GraphRAG.new 3 ((7 : ℝ) / 10)) 5 9 0 1000 1800000
      rfl h₂ h₃⟩

/-- C8: when the graph build throws during a cache miss or forced rebuild,
the error propagates to the caller and the cache map is exactly what it was
before the call — no entry is written, because the entry is only stored after
a successful build. -/
theorem resolveGraph_error_preserves_cache
    (cache : CacheMap) (indexName : String) (threshold : ℝ) (force : Bool) (now : ℤ)
    (e : JsError)
    (hmiss : ∀ entry, cache (indexName, threshold) = some entry →
      force = true ∨ CACHE_TTL_MS ≤ now - entry.createdAt) :
    resolveGraph cache indexName threshold force now (.error e) = (.error e, cache) := by
  cases hcache : cache (indexName, threshold) with
  | none => simp [resolveGraph, resolveBuild, hcache]
  | some entry =>
      have := hmiss entry hcache
      have hcond : ¬ (¬ force = true ∧ now - entry.createdAt < CACHE_TTL_MS) := by
        rcases this with h | h
        · exact fun hc => hc.1 h
        · exact fun hc => absurd hc.2 (not_lt.mpr h)
      simp only [resolveGraph, resolveBuild, hcache]
      rw [if_neg hcond]

/-- Witness for C8 at concrete inputs. -/
theorem resolveGraph_error_preserves_cache_witness :
    (∀ entry, (fun _ => none : CacheMap) ("idx", (7 : ℝ) / 10) = some entry →
      false = true ∨ CACHE_TTL_MS ≤ (0 : ℤ) - entry.createdAt) ∧
    resolveGraph (fun _ => none) "idx" ((7 : ℝ) / 10) false 0 (.error (.error "boom")) =
      (.error (.error "boom"), (fun _ => none : CacheMap)) :=
  ⟨fun _ h => Option.noConfusion h,
    resolveGraph_error_preserves_cache (fun _ => none) "idx" ((7 : ℝ) / 10) false 0
      (.error "boom") (fun _ h => Option.noConfusion h)⟩

theorem merge_congr {α : Type} (le₁ le₂ : α → α → Bool) :
    ∀ l r : List α, (∀ a ∈ l, ∀ b ∈ r, le₁ a b = le₂ a b) →
      List.merge l r le₁ = List.merge l r le₂ := by
  intro l
  induction l with
  | nil =>
      intro r _
      simp
  | cons a l ihl =>
      intro r
      induction r with
      | nil =>
          intro _
          simp
      | cons b r ihr =>
          intro h
          rw [List.cons_merge_cons, List.cons_merge_cons,
            h a (List.mem_cons_self a l) b (List.mem_cons_self b r)]
          by_cases hab : le₂ a b = true
          · rw [if_pos hab, if_pos hab,
              ihl (b :: r) (fun x hx y hy => h x (List.mem_cons_of_mem a hx) y hy)]
          · rw [if_neg hab, if_neg hab,
              ihr (fun x hx y hy => h x hx y (List.mem_cons_of_mem b hy))]

theorem mergeSort_congr {α : Type} (le₁ le₂ : α → α → Bool) :
    ∀ (l : List α), (∀ a ∈ l, ∀ b ∈ l, le₁ a b = le₂ a b) →
      l.mergeSort le₁ = l.mergeSort le₂
  | [], _ => by simp
  | [a], _ => by simp
  | a :: b :: xs, h => by
      have h1 : (List.splitInTwo ⟨a :: b :: xs, rfl⟩).1.1.length < xs.length + 1 + 1 := by
        simp [List.splitInTwo_fst]
        omega
      have h2 : (List.splitInTwo ⟨a :: b :: xs, rfl⟩).2.1.length < xs.length + 1 + 1 := by
        simp [List.splitInTwo_snd]
        omega
      have hsub1 : ∀ x ∈ (List.splitInTwo ⟨a :: b :: xs, rfl⟩).1.1, x ∈ a :: b :: xs := by
        intro x hx
        rw [List.splitInTwo_fst] at hx
        exact List.take_subset _ _ hx
      have hsub2 : ∀ x ∈ (List.splitInTwo ⟨a :: b :: xs, rfl⟩).2.1, x ∈ a :: b :: xs := by
        intro x hx
        rw [List.splitInTwo_snd] at hx
        exact List.drop_subset _ _ hx
      rw [List.mergeSort, List.mergeSort,
        mergeSort_congr le₁ le₂ (List.splitInTwo ⟨a :: b :: xs, rfl⟩).1.1
          (fun x hx y hy => h x (hsub1 x hx) y (hsub1 y hy)),
        mergeSort_congr le₁ le₂ (List.splitInTwo ⟨a :: b :: xs, rfl⟩).2.1
          (fun x hx y hy => h x (hsub2 x hx) y (hsub2 y hy))]
      exact merge_congr le₁ le₂ _ _
        (fun x hx y hy => h x (hsub1 x ((List.mergeSort_perm _ le₂).mem_iff.1 hx))
          y (hsub2 y ((List.mergeSort_perm _ le₂).mem_iff.1 hy)))
termination_by l => l.length

theorem hybridGeTot_trans (a b c : StoreResult × JsNum) :
    hybridGeTot a b = true → hybridGeTot b c = true → hybridGeTot a c = true := by
  obtain ⟨_, x⟩ := a
  obtain ⟨_, y⟩ := b
  obtain ⟨_, z⟩ := c
  cases x <;> cases y <;> cases z <;> simp [hybridGeTot] <;>
    exact fun h1 h2 => le_trans h2 h1

theorem hybridGeTot_total (a b : StoreResult × JsNum) :
    (hybridGeTot a b || hybridGeTot b a) = true := by
  obtain ⟨_, x⟩ := a
  obtain ⟨_, y⟩ := b
  cases x <;> cases y <;> simp [hybridGeTot]
  exact le_total _ _

theorem hybridGeTot_leP (a b : StoreResult × JsNum) (ha : a.2 ≠ JsNum.nan)
    (hb : b.2 ≠ JsNum.nan) (h : hybridGeTot a b = true) : JsNum.leP b.2 a.2 := by
  obtain ⟨_, x⟩ := a
  obtain ⟨_, y⟩ := b
  cases x with
  | nan => exact absurd rfl ha
  | num x =>
      cases y with
      | nan => exact absurd rfl hb
      | num y => simpa [hybridGeTot, JsNum.leP] using h

theorem hybridGeB_eq_hybridGeTot (a b : StoreResult × JsNum)
    (ha : a.2 ≠ JsNum.nan) (hb : b.2 ≠ JsNum.nan) :
    hybridGeB a b = hybridGeTot a b := by
  obtain ⟨_, x⟩ := a
  obtain ⟨_, y⟩ := b
  cases x with
  | nan => exact absurd rfl ha
  | num x =>
      cases y with
      | nan => exact absurd rfl hb
      | num y => rfl

/-- C9 counterexample: when candidates lack a `publishedAt`, every hybrid
score is `NaN` (see C3); `NaN` admits no order, and the comparator result
`NaN` is coerced to `+0`, a tie that leaves rows in place — so the returned
`sources` array is not ordered by non-increasing hybrid score: whatever the
permutation, no adjacent pair satisfies the order. -/
theorem hybridExecute_not_sorted :
    ¬ List.Pairwise
      (fun a b => JsNum.leP (b.hybridScore.getD .nan) (a.hybridScore.getD .nan))
      (hybridExecute "q" "idx" 2 ⟨1, 1, 1, 1⟩ true 0
        (fun _ => [⟨"n1", 0, ⟨none, some 0, some [], none, none⟩⟩,
          ⟨"n2", 0, ⟨none, some 0, some [], none, none⟩⟩])).sources := by
  intro hpair
  simp only [hybridExecute] at hpair
  have hmem : ∀ p ∈ (([(⟨"n1", 0, ⟨none, some 0, some [], none, none⟩⟩ : StoreResult),
      ⟨"n2", 0, ⟨none, some 0, some [], none, none⟩⟩].map
        (fun r => (r, calculateHybridScore r.score r.metadata "q" ⟨1, 1, 1, 1⟩ 0))).mergeSort
          hybridGeB), p.2 = JsNum.nan := by
    intro p hp
    have hp2 := (List.mergeSort_perm _ hybridGeB).mem_iff.1 hp
    obtain ⟨r, hr, rfl⟩ := List.mem_map.1 hp2
    rcases List.mem_cons.1 hr with rfl | hr2
    · rfl
    rcases List.mem_cons.1 hr2 with rfl | h0
    · rfl
    cases h0
  have hlen : (([(⟨"n1", 0, ⟨none, some 0, some [], none, none⟩⟩ : StoreResult),
      ⟨"n2", 0, ⟨none, some 0, some [], none, none⟩⟩].map
        (fun r => (r, calculateHybridScore r.score r.metadata "q" ⟨1, 1, 1, 1⟩ 0))).mergeSort
          hybridGeB).length = 2 := by
    simp
  obtain ⟨c, d, hcd⟩ := List.length_eq_two.1 hlen
  have hc2 : c.2 = JsNum.nan := hmem c (by
    rw [hcd]
    exact List.mem_cons_self _ _)
  have hd2 : d.2 = JsNum.nan := hmem d (by
    rw [hcd]
    exact List.mem_cons_of_mem _ (List.mem_cons_self _ _))
  rw [hcd] at hpair
  simp only [List.take_succ_cons, List.take_zero, List.take_nil, List.map_cons,
    List.map_nil] at hpair
  have hR := (List.pairwise_cons.1 hpair).1 _ (List.mem_cons_self _ _)
  simp [hc2, hd2, JsNum.leP] at hR

/-- C9 (amended): the hybrid tool asks the vector store for exactly
`topK * 2` candidates (its output depends only on the store's answer to that
request), hybrid-scores and re-ranks only those, and returns a `sources`
array of length at most `topK`; provided no candidate's hybrid score is `NaN`
(e.g. every candidate carries a valid publish date), the array is ordered by
non-increasing hybrid score.  (`hybridScore` is included in the output on
this path; with a `NaN` score present the ordering can fail — see the
counterexample.) -/
theorem hybridExecute_spec (queryText indexName : String) (topK : ℕ)
    (weights : ScoringWeights) (now : ℝ) (store : ℕ → List StoreResult)
    (hreal : ∀ r ∈ store (topK * 2),
      calculateHybridScore r.score r.metadata queryText weights now ≠ JsNum.nan) :
    (∀ (store₂ : ℕ → List StoreResult) (includeScore : Bool),
      store₂ (topK * 2) = store (topK * 2) →
      hybridExecute queryText indexName topK weights includeScore now store₂ =
        hybridExecute queryText indexName topK weights includeScore now store) ∧
    (hybridExecute queryText indexName topK weights true now store).sources.length ≤ topK ∧
    List.Pairwise
      (fun a b => JsNum.leP (b.hybridScore.getD .nan) (a.hybridScore.getD .nan))
      (hybridExecute queryText indexName topK weights true now store).sources := by
  refine ⟨?_, ?_, ?_⟩
  · intro store₂ includeScore h
    simp only [hybridExecute, h]
  · simp only [hybridExecute, List.length_map]
    exact List.length_take_le _ _
  · have hmemnn0 : ∀ p ∈ (store (topK * 2)).map
        (fun r => (r, calculateHybridScore r.score r.metadata queryText weights now)),
        p.2 ≠ JsNum.nan := by
      intro p hp
      obtain ⟨r, hr, rfl⟩ := List.mem_map.1 hp
      exact hreal r hr
    have hcongr := mergeSort_congr hybridGeB hybridGeTot
      ((store (topK * 2)).map
        (fun r => (r, calculateHybridScore r.score r.metadata queryText weights now)))
      (fun a ha b hb => hybridGeB_eq_hybridGeTot a b (hmemnn0 a ha) (hmemnn0 b hb))
    have hsorted :=
      List.sorted_mergeSort hybridGeTot_trans hybridGeTot_total
        ((store (topK * 2)).map
          (fun r => (r, calculateHybridScore r.score r.metadata queryText weights now)))
    have htake := hsorted.sublist (List.take_sublist topK _)
    have hmemnn : ∀ p ∈ (((store (topK * 2)).map
        (fun r => (r, calculateHybridScore r.score r.metadata queryText weights now))).mergeSort
          hybridGeTot).take topK, p.2 ≠ JsNum.nan := by
      intro p hp
      have hp2 := (List.take_sublist topK _).mem hp
      have hp3 := (List.mergeSort_perm _ hybridGeTot).mem_iff.1 hp2
      exact hmemnn0 p hp3
    have htake' := List.Pairwise.imp_of_mem
      (fun {a b} ha hb h => hybridGeTot_leP a b (hmemnn a ha) (hmemnn b hb) h) htake
    simp only [hybridExecute]
    rw [hcongr]
    refine List.Pairwise.map _ ?_ htake'
    intro a b h
    simpa using h

/-- Witness for the amended C9 at concrete inputs: two candidates with valid
publish dates, so both hybrid scores are real numbers and the `NaN`-freeness
hypothesis is discharged non-vacuously for a two-element result. -/
theorem hybridExecute_spec_witness :
    (∀ r ∈ (fun _ => [(⟨"a", 1, ⟨some 0, some 0, some [], none, none⟩⟩ : StoreResult),
        ⟨"b", 0, ⟨some 0, some 0, some [], none, none⟩⟩]) (2 * 2),
      calculateHybridScore r.score r.metadata "q" ⟨1, 1, 1, 1⟩ 0 ≠ JsNum.nan) ∧
    (hybridExecute "q" "idx" 2 ⟨1, 1, 1, 1⟩ true 0
      (fun _ => [⟨"a", 1, ⟨some 0, some 0, some [], none, none⟩⟩,
        ⟨"b", 0, ⟨some 0, some 0, some [], none, none⟩⟩])).sources.length ≤ 2 ∧
    List.Pairwise
      (fun a b => JsNum.leP (b.hybridScore.getD .nan) (a.hybridScore.getD .nan))
      (hybridExecute "q" "idx" 2 ⟨1, 1, 1, 1⟩ true 0
        (fun _ => [⟨"a", 1, ⟨some 0, some 0, some [], none, none⟩⟩,
          ⟨"b", 0, ⟨some 0, some 0, some [], none, none⟩⟩])).sources := by
  have hnum : ∀ v : ℝ, calculateHybridScore v ⟨some 0, some 0, some [], none, none⟩
      "q" ⟨1, 1, 1, 1⟩ 0 ≠ JsNum.nan := by
    intro v
    rw [calculateHybridScore_eq_num v ⟨some 0, some 0, some [], none, none⟩ "q"
      ⟨1, 1, 1, 1⟩ 0 _ (freshnessScore_some 0 0)]
    intro h
    cases h
  have hreal : ∀ r ∈ (fun _ =>
      [(⟨"a", 1, ⟨some 0, some 0, some [], none, none⟩⟩ : StoreResult),
        ⟨"b", 0, ⟨some 0, some 0, some [], none, none⟩⟩]) (2 * 2),
      calculateHybridScore r.score r.metadata "q" ⟨1, 1, 1, 1⟩ 0 ≠ JsNum.nan := by
    intro r hr
    rcases List.mem_cons.1 hr with rfl | hr2
    · exact hnum 1
    rcases List.mem_cons.1 hr2 with rfl | h0
    · exact hnum 0
    cases h0
  have h := hybridExecute_spec "q" "idx" 2 ⟨1, 1, 1, 1⟩ 0
    (fun _ => [⟨"a", 1, ⟨some 0, some 0, some [], none, none⟩⟩,
      ⟨"b", 0, ⟨some 0, some 0, some [], none, none⟩⟩]) hreal
  exact ⟨hreal, h.2.1, h.2.2⟩

/-- C6: `GraphRAG.query` fails when the query embedding's length differs from
the configured dimension, and returns an empty result list (not an error) on
an empty graph when the dimension matches. -/
theorem graphRAG_query_spec (g : GraphRAG) (queryV : List ℝ) (topK steps : ℕ)
    (restartProb : ℝ) (rand : ℕ → ℕ → ℝ) :
    (queryV.length ≠ g.dimension →
      g.query queryV topK steps restartProb rand =
        .error (.error "Query embedding must have dimension")) ∧
    (g.nodes = [] → queryV.length = g.dimension →
      g.query queryV topK steps restartProb rand = .ok []) := by
  constructor
  · intro h
    simp [GraphRAG.query, h]
  · intro hn h
    simp [GraphRAG.query, hn, h, List.mapM.loop]
    rfl

/-- Witness for C6 at concrete inputs. -/
theorem graphRAG_query_spec_witness :
    (([1, 2, 3] : List ℝ).length ≠ (GraphRAG.new 2 (7 / 10)).dimension ∧
      (GraphRAG.new 2 (7 / 10)).query [1, 2, 3] 10 100 (15 / 100) (fun _ _ => 0) =
        .error (.error "Query embedding must have dimension")) ∧
    ((GraphRAG.new 2 (7 / 10)).nodes = [] ∧
      ([1, 2] : List ℝ).length = (GraphRAG.new 2 (7 / 10)).dimension ∧
      (GraphRAG.new 2 (7 / 10)).query [1, 2] 10 100 (15 / 100) (fun _ _ => 0) = .ok []) := by
  have h1 : ([1, 2, 3] : List ℝ).length ≠ (GraphRAG.new 2 (7 / 10)).dimension := by
    simp [GraphRAG.new]
  have h2 : ([1, 2] : List ℝ).length = (GraphRAG.new 2 (7 / 10)).dimension := by
    simp [GraphRAG.new]
  exact ⟨⟨h1, (graphRAG_query_spec _ [1, 2, 3] 10 100 (15 / 100) (fun _ _ => 0)).1 h1⟩,
    rfl, h2, (graphRAG_query_spec _ [1, 2] 10 100 (15 / 100) (fun _ _ => 0)).2 rfl h2⟩

theorem selectLoop_mem (ns : List Neighbor) (r : ℝ) (id : String)
    (h : selectLoop ns r = some id) : id ∈ ns.map Neighbor.id := by
  induction ns generalizing r with
  | nil => cases h
  | cons nb rest ih =>
      by_cases hc : r - nb.weight ≤ 0
      · rw [selectLoop, if_pos hc] at h
        cases h
        simp
      · rw [selectLoop, if_neg hc] at h
        simpa using Or.inr (ih _ h)

theorem selectWeightedNeighbor_mem (ns : List Neighbor) (r : ℝ) (h : ns ≠ []) :
    selectWeightedNeighbor ns r ∈ ns.map Neighbor.id := by
  simp only [selectWeightedNeighbor]
  cases hsel : selectLoop ns (r * (ns.map Neighbor.weight).sum) with
  | some id => exact selectLoop_mem ns _ id hsel
  | none =>
      rw [List.getLast?_eq_getLast ns h]
      exact List.mem_map_of_mem Neighbor.id (List.getLast_mem h)

theorem assocSet_keys {α : Type} (m : List (String × α)) (key : String) (v : α)
    (q : String × α) (h : q ∈ assocSet m key v) : q.1 = key ∨ ∃ p ∈ m, q.1 = p.1 := by
  unfold assocSet at h
  by_cases hc : m.any (fun p => p.1 == key)
  · rw [if_pos hc] at h
    obtain ⟨p, hp, hq⟩ := List.mem_map.1 h
    by_cases hpk : p.1 = key
    · rw [if_pos hpk] at hq
      left
      rw [← hq, ← hpk]
    · rw [if_neg hpk] at hq
      right
      exact ⟨p, hp, by rw [← hq]⟩
  · rw [if_neg hc] at h
    rcases List.mem_append.1 h with h | h
    · right
      exact ⟨q, h, rfl⟩
    · left
      simp only [List.mem_singleton] at h
      rw [h]

theorem getNeighbors_closed (g : GraphRAG)
    (hclosed : ∀ e ∈ g.edges, g.hasNode e.target = true) (current : String)
    (nb : Neighbor) (h : nb ∈ g.getNeighbors current) : g.hasNode nb.id = true := by
  simp only [GraphRAG.getNeighbors] at h
  obtain ⟨e, he, rfl⟩ := List.mem_map.1 h
  exact hclosed e (List.mem_filter.1 he).1

theorem bumpVisit_keys (visits : List (String × ℕ)) (id : String)
    (P : String → Prop) (hvis : ∀ q ∈ visits, P q.1) (hid : P id) :
    ∀ q ∈ bumpVisit visits id, P q.1 := by
  intro q hq
  rcases assocSet_keys visits id _ q hq with h | ⟨p, hp, h⟩
  · rw [h]; exact hid
  · rw [h]; exact hvis p hp

theorem walkLoop_visits_closed (g : GraphRAG) (start : String) (p : ℝ) (rand : ℕ → ℝ)
    (hstart : g.hasNode start = true)
    (hclosed : ∀ e ∈ g.edges, g.hasNode e.target = true) :
    ∀ (steps : ℕ) (current : String) (ctr : ℕ) (visits : List (String × ℕ)),
      g.hasNode current = true →
      (∀ q ∈ visits, g.hasNode q.1 = true) →
      ∀ q ∈ walkLoop g start p rand steps current ctr visits, g.hasNode q.1 = true := by
  intro steps
  induction steps with
  | zero =>
      intro current ctr visits _ hvis q hq
      rw [walkLoop] at hq
      exact hvis q hq
  | succ n ih =>
      intro current ctr visits hcur hvis q hq
      rw [walkLoop] at hq
      have hvis' := bumpVisit_keys visits current (fun s => g.hasNode s = true) hvis hcur
      by_cases hr : rand ctr < p
      · rw [if_pos hr] at hq
        exact ih start (ctr + 1) _ hstart hvis' q hq
      · rw [if_neg hr] at hq
        by_cases hne : (g.getNeighbors current).isEmpty
        · rw [if_pos hne] at hq
          exact ih start (ctr + 1) _ hstart hvis' q hq
        · rw [if_neg hne] at hq
          have hnonempty : g.getNeighbors current ≠ [] := by
            intro hcontra
            rw [hcontra] at hne
            exact hne rfl
          have hmem := selectWeightedNeighbor_mem (g.getNeighbors current)
            (rand (ctr + 1)) hnonempty
          obtain ⟨nb, hnb, hid⟩ := List.mem_map.1 hmem
          have hnext : g.hasNode (selectWeightedNeighbor (g.getNeighbors current)
              (rand (ctr + 1))) = true := by
            rw [← hid]
            exact getNeighbors_closed g hclosed current nb hnb
          exact ih _ (ctr + 2) _ hnext hvis' q hq

/-- C10: `selectWeightedNeighbor` on a non-empty neighbor list always returns
one of the listed neighbor ids (the weighted scan or the last-element
fallback), and consequently a random walk started at a graph node, over a
graph whose edges all target existing nodes, only records visits for node ids
present in the node set. -/
theorem randomWalk_safety :
    (∀ (ns : List Neighbor) (r : ℝ), ns ≠ [] →
      selectWeightedNeighbor ns r ∈ ns.map Neighbor.id) ∧
    (∀ (g : GraphRAG) (start : String) (steps : ℕ) (p : ℝ) (rand : ℕ → ℝ),
      g.hasNode start = true →
      (∀ e ∈ g.edges, g.hasNode e.target = true) →
      ∀ q ∈ g.randomWalkWithRestart start steps p rand, g.hasNode q.1 = true) := by
  constructor
  · exact fun ns r h => selectWeightedNeighbor_mem ns r h
  · intro g start steps p rand hstart hclosed q hq
    simp only [GraphRAG.randomWalkWithRestart] at hq
    obtain ⟨v, hv, rfl⟩ := List.mem_map.1 hq
    exact walkLoop_visits_closed g start p rand hstart hclosed steps start 0 []
      hstart (by intro x hx; cases hx) v hv

/-- Witness for C10 at concrete inputs. -/
theorem randomWalk_safety_witness :
    (([⟨"a", 1⟩] : List Neighbor) ≠ [] ∧
      selectWeightedNeighbor [⟨"a", 1⟩] 0 ∈ ([⟨"a", 1⟩] : List Neighbor).map Neighbor.id) ∧
    ((GraphRAG.mk [("s", ⟨"s", "", some [1, 0], default⟩)] [] 2 (7 / 10)).hasNode "s" = true ∧
      (∀ e ∈ (GraphRAG.mk [("s", ⟨"s", "", some [1, 0], default⟩)] [] 2 (7 / 10)).edges,
        (GraphRAG.mk [("s", ⟨"s", "", some [1, 0], default⟩)] [] 2 (7 / 10)).hasNode
          e.target = true) ∧
      ∀ q ∈ (GraphRAG.mk [("s", ⟨"s", "", some [1, 0], default⟩)] [] 2
          (7 / 10)).randomWalkWithRestart "s" 5 (15 / 100) (fun _ => 0),
        (GraphRAG.mk [("s", ⟨"s", "", some [1, 0], default⟩)] [] 2 (7 / 10)).hasNode
          q.1 = true) := by
  have hne : ([⟨"a", 1⟩] : List Neighbor) ≠ [] := by simp
  have hstart : (GraphRAG.mk [("s", ⟨"s", "", some [1, 0], default⟩)] [] 2
      (7 / 10)).hasNode "s" = true := rfl
  have hclosed : ∀ e ∈ (GraphRAG.mk [("s", ⟨"s", "", some [1, 0], default⟩)] [] 2
      (7 / 10)).edges,
      (GraphRAG.mk [("s", ⟨"s", "", some [1, 0], default⟩)] [] 2 (7 / 10)).hasNode
        e.target = true := by
    intro e he
    cases he
  exact ⟨⟨hne, randomWalk_safety.1 [⟨"a", 1⟩] 0 hne⟩, hstart, hclosed,
    randomWalk_safety.2 (GraphRAG.mk [("s", ⟨"s", "", some [1, 0], default⟩)] [] 2 (7 / 10))
      "s" 5 (15 / 100) (fun _ => 0) hstart hclosed⟩

theorem cosineSimilarity_eq_ok (v1 v2 : List ℝ) (h : v1.length = v2.length) :
    cosineSimilarity v1 v2 = .ok (cosValue v1 v2) := by
  simp only [cosineSimilarity, cosValue]
  rw [if_neg (show ¬v1.length ≠ v2.length from fun hc => hc h)]
  by_cases hm : Real.sqrt (normSq v1 * normSq v2) = 0
  · rw [if_pos hm, if_pos hm]
  · rw [if_neg hm, if_neg hm]

theorem addNode_ok (g : GraphRAG) (node : GraphNode) (emb : List ℝ)
    (hemb : node.embedding = some emb) (hdim : emb.length = g.dimension) :
    g.addNode node = .ok { g with nodes := mapSet g.nodes node.id node } := by
  simp [GraphRAG.addNode, hemb, hdim, mapSet]

theorem mapSet_hasKey (m : List (String × GraphNode)) (key : String) (v : GraphNode)
    (id : String) :
    (mapSet m key v).any (fun p => p.1 == id) =
      (m.any (fun p => p.1 == id) || key == id) := by
  unfold mapSet assocSet
  by_cases hc : m.any (fun p => p.1 == key)
  · rw [if_pos hc, List.any_map]
    have hfun : ((fun p : String × GraphNode => p.1 == id) ∘
        (fun p : String × GraphNode => if p.1 = key then (p.1, v) else p)) =
        (fun p : String × GraphNode => p.1 == id) := by
      funext p
      by_cases hp : p.1 = key <;> simp [hp]
    rw [hfun]
    by_cases hid : key = id
    · subst hid
      simp [hc]
    · simp [hid]
  · rw [if_neg hc, List.any_append]
    simp

theorem addEdge_ok (g : GraphRAG) (e : GraphEdge)
    (hs : g.hasNode e.source = true) (ht : g.hasNode e.target = true) :
    g.addEdge e =
      .ok { g with edges := g.edges ++ [e, ⟨e.target, e.source, e.weight, e.type⟩] } := by
  simp [GraphRAG.addEdge, hs, ht]

theorem addNode_fold_ok (embeddings : List GraphEmbedding) :
    ∀ (l : List (ℕ × GraphChunk)) (g : GraphRAG),
      (∀ p ∈ l, ∃ e, embeddings.get? p.1 = some e ∧ e.vector.length = g.dimension) →
      ∃ g1, l.foldlM (addNodeStep embeddings) g = .ok g1 ∧
        g1.edges = g.edges ∧ g1.dimension = g.dimension ∧ g1.threshold = g.threshold ∧
        (∀ id, g.hasNode id = true → g1.hasNode id = true) ∧
        (∀ p ∈ l, g1.hasNode (natToString p.1) = true) := by
  intro l
  induction l with
  | nil =>
      intro g _
      exact ⟨g, rfl, rfl, rfl, rfl, fun _ h => h, fun p hp => absurd hp (List.not_mem_nil p)⟩
  | cons p l ih =>
      intro g hl
      obtain ⟨e, hget, hlen⟩ := hl p (List.mem_cons_self p l)
      have hstep : addNodeStep embeddings g p =
          .ok { g with nodes := (mapSet g.nodes (natToString p.1)
            ⟨natToString p.1, p.2.text,
              (embeddings.get? p.1).map GraphEmbedding.vector, p.2.metadata⟩) } := by
        apply addNode_ok
        · rw [hget]
          rfl
        · exact hlen
      set g' : GraphRAG := { g with nodes := (mapSet g.nodes (natToString p.1)
            ⟨natToString p.1, p.2.text,
              (embeddings.get? p.1).map GraphEmbedding.vector, p.2.metadata⟩) } with hg'
      have hmono : ∀ id, g.hasNode id = true → g'.hasNode id = true := by
        intro id h
        show (mapSet g.nodes (natToString p.1) _).any (fun q => q.1 == id) = true
        rw [mapSet_hasKey]
        simp [GraphRAG.hasNode] at h
        simp [h]
      have hself : g'.hasNode (natToString p.1) = true := by
        show (mapSet g.nodes (natToString p.1) _).any (fun q => q.1 == natToString p.1) = true
        rw [mapSet_hasKey]
        simp
      obtain ⟨g1, hfold, hedges, hdim, hthr, hmono1, hmem1⟩ := ih g'
        (by
          intro q hq
          obtain ⟨eq, hgetq, hlenq⟩ := hl q (List.mem_cons_of_mem p hq)
          exact ⟨eq, hgetq, hlenq⟩)
      refine ⟨g1, ?_, ?_, ?_, ?_, ?_, ?_⟩
      · rw [List.foldlM_cons, hstep]
        exact hfold
      · rw [hedges]
      · rw [hdim]
      · rw [hthr]
      · exact fun id h => hmono1 id (hmono id h)
      · intro q hq
        rcases List.mem_cons.1 hq with rfl | hq
        · exact hmono1 _ hself
        · exact hmem1 q hq

theorem addEdge_fold_ok (embeddings : List GraphEmbedding) (d : ℕ) :
    ∀ (ps : List (ℕ × ℕ)) (g : GraphRAG),
      g.dimension = d →
      (∀ ij ∈ ps, ∃ e1 e2, embeddings.get? ij.1 = some e1 ∧
        embeddings.get? ij.2 = some e2 ∧
        e1.vector.length = d ∧ e2.vector.length = d ∧
        g.hasNode (natToString ij.1) = true ∧ g.hasNode (natToString ij.2) = true) →
      ps.foldlM (addEdgeStep embeddings) g =
        .ok { g with edges := g.edges ++ pureEdges embeddings g.threshold ps } := by
  intro ps
  induction ps with
  | nil =>
      intro g _ _
      simp [pureEdges]
      rfl
  | cons ij ps ih =>
      intro g hd hl
      obtain ⟨e1, e2, hget1, hget2, hlen1, hlen2, hn1, hn2⟩ := hl ij (List.mem_cons_self ij ps)
      have hsim : cosineSimilarity e1.vector e2.vector = .ok (cosValue e1.vector e2.vector) :=
        cosineSimilarity_eq_ok _ _ (by rw [hlen1, hlen2])
      rw [List.foldlM_cons]
      have hstep : addEdgeStep embeddings g ij =
          .ok { g with edges := g.edges ++ edgesFor embeddings g.threshold ij } := by
        simp only [addEdgeStep, edgesFor, hget1, hget2, hsim]
        show (if g.threshold < cosValue e1.vector e2.vector then
            g.addEdge ⟨natToString ij.1, natToString ij.2,
              cosValue e1.vector e2.vector, "semantic"⟩
          else pure g) =
          .ok { g with edges := g.edges ++
            (if g.threshold < cosValue e1.vector e2.vector then
              [⟨natToString ij.1, natToString ij.2, cosValue e1.vector e2.vector, "semantic"⟩,
               ⟨natToString ij.2, natToString ij.1, cosValue e1.vector e2.vector, "semantic"⟩]
             else []) }
        by_cases hthr : g.threshold < cosValue e1.vector e2.vector
        · rw [if_pos hthr, if_pos hthr]
          exact addEdge_ok g _ hn1 hn2
        · rw [if_neg hthr, if_neg hthr]
          simp
          rfl
      rw [hstep]
      have hrec := ih { g with edges := g.edges ++ edgesFor embeddings g.threshold ij }
        (by simpa using hd)
        (by
          intro kl hkl
          obtain ⟨f1, f2, h1, h2, h3, h4, h5, h6⟩ := hl kl (List.mem_cons_of_mem ij hkl)
          exact ⟨f1, f2, h1, h2, h3, h4, h5, h6⟩)
      show List.foldlM (addEdgeStep embeddings)
        { g with edges := g.edges ++ edgesFor embeddings g.threshold ij } ps = _
      rw [hrec]
      simp only [pureEdges, List.flatMap_cons, List.append_assoc]

theorem mem_pairsUpTo (n i j : ℕ) : (i, j) ∈ pairsUpTo n ↔ i < j ∧ j < n := by
  unfold pairsUpTo
  rw [List.mem_flatMap]
  constructor
  · rintro ⟨a, ha, hmem⟩
    rw [List.mem_map] at hmem
    obtain ⟨b, hb, heq⟩ := hmem
    obtain ⟨rfl, rfl⟩ : a = i ∧ b = j := by
      constructor <;> [exact congrArg Prod.fst heq; exact congrArg Prod.snd heq]
    rw [List.mem_range] at ha
    rw [List.mem_range'_1] at hb
    omega
  · rintro ⟨hij, hjn⟩
    refine ⟨i, ?_, ?_⟩
    · rw [List.mem_range]
      omega
    · rw [List.mem_map]
      refine ⟨j, ?_, rfl⟩
      rw [List.mem_range'_1]
      omega

theorem pairsUpTo_nodup (n : ℕ) : (pairsUpTo n).Nodup := by
  unfold pairsUpTo
  rw [List.nodup_flatMap]
  constructor
  · intro i _
    exact (List.nodup_range' _ _).map
      (fun a b h => by
        have := congrArg Prod.snd h
        simpa using this)
  · have : ∀ a b : ℕ, a ≠ b →
        Function.onFun List.Disjoint
          (fun i => (List.range' (i + 1) (n - (i + 1))).map (fun j => (i, j))) a b := by
      intro a b hab x hxa hxb
      rw [List.mem_map] at hxa hxb
      obtain ⟨j1, _, rfl⟩ := hxa
      obtain ⟨j2, _, heq⟩ := hxb
      exact hab (congrArg Prod.fst heq).symm
    exact List.Pairwise.imp_of_mem (fun {a b} ha hb h => this a b h)
      ((List.nodup_range n).imp (fun h => h))

theorem mem_edgesFor (embeddings : List GraphEmbedding) (thr : ℝ) (ij : ℕ × ℕ)
    (e : GraphEdge) :
    e ∈ edgesFor embeddings thr ij ↔
      ∃ e1 e2, embeddings.get? ij.1 = some e1 ∧ embeddings.get? ij.2 = some e2 ∧
        thr < cosValue e1.vector e2.vector ∧
        (e = ⟨natToString ij.1, natToString ij.2, cosValue e1.vector e2.vector, "semantic"⟩ ∨
         e = ⟨natToString ij.2, natToString ij.1, cosValue e1.vector e2.vector, "semantic"⟩) := by
  unfold edgesFor
  cases h1 : embeddings.get? ij.1 with
  | none => simp [h1]
  | some e1 =>
      cases h2 : embeddings.get? ij.2 with
      | none => simp [h2]
      | some e2 =>
          show e ∈ (if thr < cosValue e1.vector e2.vector then
              [(⟨natToString ij.1, natToString ij.2,
                  cosValue e1.vector e2.vector, "semantic"⟩ : GraphEdge),
                ⟨natToString ij.2, natToString ij.1,
                  cosValue e1.vector e2.vector, "semantic"⟩]
            else []) ↔ _
          by_cases hthr : thr < cosValue e1.vector e2.vector
          · rw [if_pos hthr]
            constructor
            · intro hmem
              rcases List.mem_cons.1 hmem with rfl | hmem2
              · exact ⟨e1, e2, rfl, rfl, hthr, Or.inl rfl⟩
              rcases List.mem_cons.1 hmem2 with rfl | h0
              · exact ⟨e1, e2, rfl, rfl, hthr, Or.inr rfl⟩
              cases h0
            · rintro ⟨f1, f2, hf1, hf2, _, hor⟩
              cases hf1
              cases hf2
              rcases hor with rfl | rfl
              · exact List.mem_cons_self _ _
              · exact List.mem_cons_of_mem _ (List.mem_cons_self _ _)
          · rw [if_neg hthr]
            constructor
            · intro h0
              cases h0
            · rintro ⟨f1, f2, hf1, hf2, hthr2, _⟩
              cases hf1
              cases hf2
              exact absurd hthr2 hthr

theorem pairwise_flatMap {α β : Type} (R : β → β → Prop) (f : α → List β) :
    ∀ (l : List α), (∀ a ∈ l, (f a).Pairwise R) →
      l.Pairwise (fun a b => ∀ x ∈ f a, ∀ y ∈ f b, R x y) →
      (l.flatMap f).Pairwise R := by
  intro l
  induction l with
  | nil => simp
  | cons a l ih =>
      intro h1 h2
      rw [List.flatMap_cons, List.pairwise_append]
      obtain ⟨hcross, htail⟩ := List.pairwise_cons.1 h2
      refine ⟨h1 a (List.mem_cons_self a l),
        ih (fun b hb => h1 b (List.mem_cons_of_mem a hb)) htail, ?_⟩
      intro x hx y hy
      obtain ⟨b, hb, hyb⟩ := List.mem_flatMap.1 hy
      exact hcross b hb x hx y hyb

theorem edgesFor_pairwise (embeddings : List GraphEmbedding) (thr : ℝ) (ij : ℕ × ℕ)
    (hij : ij.1 ≠ ij.2) :
    (edgesFor embeddings thr ij).Pairwise
      (fun a b => ¬ (a.source = b.source ∧ a.target = b.target)) := by
  unfold edgesFor
  cases h1 : embeddings.get? ij.1 with
  | none => simp
  | some e1 =>
      cases h2 : embeddings.get? ij.2 with
      | none => simp
      | some e2 =>
          show List.Pairwise _ (if thr < cosValue e1.vector e2.vector then
              [(⟨natToString ij.1, natToString ij.2,
                  cosValue e1.vector e2.vector, "semantic"⟩ : GraphEdge),
                ⟨natToString ij.2, natToString ij.1,
                  cosValue e1.vector e2.vector, "semantic"⟩]
            else [])
          by_cases hthr : thr < cosValue e1.vector e2.vector
          · rw [if_pos hthr]
            refine List.pairwise_cons.2 ⟨?_, List.pairwise_singleton _ _⟩
            intro y hy
            rcases List.mem_singleton.1 hy with rfl
            rintro ⟨hs, _⟩
            exact hij (natToString_injective hs)
          · rw [if_neg hthr]
            exact List.Pairwise.nil

theorem edgesFor_cross (embeddings : List GraphEmbedding) (thr : ℝ) (ij kl : ℕ × ℕ)
    (hij : ij.1 < ij.2) (hkl : kl.1 < kl.2) (hne : ij ≠ kl) :
    ∀ x ∈ edgesFor embeddings thr ij, ∀ y ∈ edgesFor embeddings thr kl,
      ¬ (x.source = y.source ∧ x.target = y.target) := by
  obtain ⟨i, j⟩ := ij
  obtain ⟨k, l⟩ := kl
  simp only at hij hkl
  intro x hx y hy hcontra
  obtain ⟨hs, ht⟩ := hcontra
  obtain ⟨e1, e2, _, _, _, hxor⟩ := (mem_edgesFor _ _ _ _).1 hx
  obtain ⟨f1, f2, _, _, _, hyor⟩ := (mem_edgesFor _ _ _ _).1 hy
  rcases hxor with rfl | rfl <;> rcases hyor with rfl | rfl <;>
    simp only at hs ht
  · exact hne (by rw [natToString_injective hs, natToString_injective ht])
  · have h1 := natToString_injective hs
    have h2 := natToString_injective ht
    omega
  · have h1 := natToString_injective hs
    have h2 := natToString_injective ht
    omega
  · exact hne (by rw [natToString_injective ht, natToString_injective hs])

/-- C1: `createGraph` on non-empty equal-length chunk and embedding arrays
(whose embeddings all match the configured dimension) produces a graph whose
edge list contains, for each index pair `i < j` with cosine similarity
strictly above the threshold, exactly the two directed entries `i→j` and
`j→i` with that similarity as their shared weight — and nothing else: every
edge arises this way, there are no self-edges, and no two entries share the
same (source, target) pair, so no unordered pair is duplicated. -/
theorem createGraph_edge_spec (dim : ℕ) (thr : ℝ) (chunks : List GraphChunk)
    (embeddings : List GraphEmbedding)
    (hne : chunks ≠ []) (hlen : chunks.length = embeddings.length)
    (hdim : ∀ e ∈ embeddings, e.vector.length = dim) :
    ∃ g' : GraphRAG,
      (GraphRAG.new dim thr).createGraph chunks embeddings = .ok g' ∧
      (∀ e : GraphEdge, e ∈ g'.edges ↔
        ∃ i j e1 e2, i < j ∧ j < chunks.length ∧
          embeddings.get? i = some e1 ∧ embeddings.get? j = some e2 ∧
          thr < cosValue e1.vector e2.vector ∧
          (e = ⟨natToString i, natToString j, cosValue e1.vector e2.vector, "semantic"⟩ ∨
           e = ⟨natToString j, natToString i, cosValue e1.vector e2.vector, "semantic"⟩)) ∧
      (∀ e ∈ g'.edges, e.source ≠ e.target) ∧
      g'.edges.Pairwise (fun a b => ¬ (a.source = b.source ∧ a.target = b.target)) := by
  have hget : ∀ i, i < chunks.length →
      ∃ e, embeddings.get? i = some e ∧ e.vector.length = dim := by
    intro i hi
    have hi' : i < embeddings.length := by omega
    cases hgete : embeddings.get? i with
    | none =>
        rw [List.get?_eq_none] at hgete
        omega
    | some e =>
        exact ⟨e, rfl, hdim e (List.get?_mem hgete)⟩
  have henum : ∀ p ∈ chunks.enum, ∃ e, embeddings.get? p.1 = some e ∧
      e.vector.length = (GraphRAG.new dim thr).dimension := by
    intro p hp
    obtain ⟨i, c⟩ := p
    have hc : chunks[i]? = some c := List.mk_mem_enum_iff_getElem?.1 hp
    have hi : i < chunks.length := by
      rcases List.getElem?_eq_some.1 hc with ⟨h, _⟩
      exact h
    exact hget i hi
  obtain ⟨g1, hfold, hedges, hdim1, hthr1, _, hmem1⟩ :=
    addNode_fold_ok embeddings chunks.enum (GraphRAG.new dim thr) henum
  have hhas : ∀ i, i < chunks.length → g1.hasNode (natToString i) = true := by
    intro i hi
    have hlt : i < chunks.length := hi
    have : ∃ c, chunks[i]? = some c := by
      cases hgc : chunks[i]? with
      | none =>
          rw [List.getElem?_eq_none_iff] at hgc
          omega
      | some c => exact ⟨c, rfl⟩
    obtain ⟨c, hc⟩ := this
    exact hmem1 (i, c) (List.mk_mem_enum_iff_getElem?.2 hc)
  have hedgefold := addEdge_fold_ok embeddings dim (pairsUpTo chunks.length) g1 hdim1
    (by
      intro ij hij
      obtain ⟨hij1, hij2⟩ := (mem_pairsUpTo chunks.length ij.1 ij.2).1 (by
        obtain ⟨a, b⟩ := ij
        exact hij)
      obtain ⟨e1, he1, hl1⟩ := hget ij.1 (by omega)
      obtain ⟨e2, he2, hl2⟩ := hget ij.2 hij2
      exact ⟨e1, e2, he1, he2, hl1, hl2, hhas ij.1 (by omega), hhas ij.2 hij2⟩)
  have hcond1 : ¬ (chunks.length = 0 ∨ embeddings.length = 0) := by
    have : chunks.length ≠ 0 := by
      intro hc
      exact hne (List.length_eq_zero.1 hc)
    omega
  have hcond2 : ¬ chunks.length ≠ embeddings.length := fun hc => hc hlen
  refine ⟨{ g1 with edges := (g1.edges ++
    pureEdges embeddings g1.threshold (pairsUpTo chunks.length)) }, ?_, ?_, ?_, ?_⟩
  · simp only [GraphRAG.createGraph]
    rw [if_neg hcond1, if_neg hcond2]
    show (do
      let g1 ← createNodes (GraphRAG.new dim thr) chunks embeddings
      createEdges g1 embeddings chunks.length) = _
    rw [show createNodes (GraphRAG.new dim thr) chunks embeddings = .ok g1 from hfold]
    show createEdges g1 embeddings chunks.length = _
    exact hedgefold
  · intro e
    simp only [hedges]
    show e ∈ (GraphRAG.new dim thr).edges ++ pureEdges embeddings g1.threshold _ ↔ _
    rw [hthr1]
    show e ∈ [] ++ pureEdges embeddings thr _ ↔ _
    rw [List.nil_append]
    unfold pureEdges
    rw [List.mem_flatMap]
    constructor
    · rintro ⟨ij, hijmem, hmem⟩
      obtain ⟨hij1, hij2⟩ := (mem_pairsUpTo chunks.length ij.1 ij.2).1 (by
        obtain ⟨a, b⟩ := ij
        exact hijmem)
      obtain ⟨e1, e2, he1, he2, hthr2, hor⟩ := (mem_edgesFor _ _ _ _).1 hmem
      exact ⟨ij.1, ij.2, e1, e2, hij1, hij2, he1, he2, hthr2, hor⟩
    · rintro ⟨i, j, e1, e2, hij, hjn, he1, he2, hthr2, hor⟩
      refine ⟨(i, j), (mem_pairsUpTo chunks.length i j).2 ⟨hij, hjn⟩, ?_⟩
      exact (mem_edgesFor _ _ _ _).2 ⟨e1, e2, he1, he2, hthr2, hor⟩
  · intro e he
    simp only [hedges] at he
    have he' : e ∈ pureEdges embeddings g1.threshold (pairsUpTo chunks.length) := by
      have : e ∈ (GraphRAG.new dim thr).edges ++
          pureEdges embeddings g1.threshold (pairsUpTo chunks.length) := he
      simpa [GraphRAG.new] using this
    obtain ⟨ij, hijmem, hmem⟩ := List.mem_flatMap.1 he'
    obtain ⟨hij1, _⟩ := (mem_pairsUpTo chunks.length ij.1 ij.2).1 (by
      obtain ⟨a, b⟩ := ij
      exact hijmem)
    obtain ⟨e1, e2, _, _, _, hor⟩ := (mem_edgesFor _ _ _ _).1 hmem
    rcases hor with rfl | rfl <;>
      exact fun hs => absurd (natToString_injective hs) (by omega)
  · show (g1.edges ++
      pureEdges embeddings g1.threshold (pairsUpTo chunks.length)).Pairwise _
    rw [hedges, show (GraphRAG.new dim thr).edges = [] from rfl, List.nil_append]
    apply pairwise_flatMap
    · intro ij hijmem
      obtain ⟨hij1, _⟩ := (mem_pairsUpTo chunks.length ij.1 ij.2).1 (by
        obtain ⟨a, b⟩ := ij
        exact hijmem)
      exact edgesFor_pairwise embeddings g1.threshold ij (by omega)
    · refine List.Pairwise.imp_of_mem ?_ ((pairsUpTo_nodup chunks.length))
      intro ij kl hijmem hklmem hnepair
      have hij := (mem_pairsUpTo chunks.length ij.1 ij.2).1 (by
        obtain ⟨a, b⟩ := ij
        exact hijmem)
      have hkl := (mem_pairsUpTo chunks.length kl.1 kl.2).1 (by
        obtain ⟨a, b⟩ := kl
        exact hklmem)
      exact edgesFor_cross embeddings g1.threshold ij kl hij.1 hkl.1 hnepair

/-- Witness for C1 at concrete inputs (two orthogonal embeddings, threshold
0.7: the similarity is 0, so the resulting edge set is characterized by the
spec with no pair above threshold). -/
theorem createGraph_edge_spec_witness :
    (([⟨"a", default⟩, ⟨"b", default⟩] : List GraphChunk) ≠ [] ∧
      ([⟨"a", default⟩, ⟨"b", default⟩] : List GraphChunk).length =
        ([⟨[1, 0]⟩, ⟨[0, 1]⟩] : List GraphEmbedding).length ∧
      (∀ e ∈ ([⟨[1, 0]⟩, ⟨[0, 1]⟩] : List GraphEmbedding), e.vector.length = 2)) ∧
    (∃ g' : GraphRAG,
      (GraphRAG.new 2 (7 / 10)).createGraph [⟨"a", default⟩, ⟨"b", default⟩]
          [⟨[1, 0]⟩, ⟨[0, 1]⟩] = .ok g' ∧
      (∀ e : GraphEdge, e ∈ g'.edges ↔
        ∃ i j e1 e2, i < j ∧
          j < ([⟨"a", default⟩, ⟨"b", default⟩] : List GraphChunk).length ∧
          ([⟨[1, 0]⟩, ⟨[0, 1]⟩] : List GraphEmbedding).get? i = some e1 ∧
          ([⟨[1, 0]⟩, ⟨[0, 1]⟩] : List GraphEmbedding).get? j = some e2 ∧
          (7 : ℝ) / 10 < cosValue e1.vector e2.vector ∧
          (e = ⟨natToString i, natToString j, cosValue e1.vector e2.vector, "semantic"⟩ ∨
           e = ⟨natToString j, natToString i, cosValue e1.vector e2.vector, "semantic"⟩)) ∧
      (∀ e ∈ g'.edges, e.source ≠ e.target) ∧
      g'.edges.Pairwise (fun a b => ¬ (a.source = b.source ∧ a.target = b.target))) := by
  have hne : ([⟨"a", default⟩, ⟨"b", default⟩] : List GraphChunk) ≠ [] := by simp
  have hlen : ([⟨"a", default⟩, ⟨"b", default⟩] : List GraphChunk).length =
      ([⟨[1, 0]⟩, ⟨[0, 1]⟩] : List GraphEmbedding).length := rfl
  have hdim : ∀ e ∈ ([⟨[1, 0]⟩, ⟨[0, 1]⟩] : List GraphEmbedding), e.vector.length = 2 := by
    intro e he
    rcases List.mem_cons.1 he with rfl | he2
    · rfl
    rcases List.mem_cons.1 he2 with rfl | h0
    · rfl
    cases h0
  exact ⟨⟨hne, hlen, hdim⟩,
    createGraph_edge_spec 2 (7 / 10) [⟨"a", default⟩, ⟨"b", default⟩]
      [⟨[1, 0]⟩, ⟨[0, 1]⟩] hne hlen hdim⟩
